import Mathlib

/-
Verification development for the physics core of a 2-D gravitational
N-body simulator (CelestialSim).  The C++ source computes with 32-bit
floats; we model float values as elements of a linear ordered field
(instantiated at ℚ for the executable tree-building code and at ℝ for
the code that takes square roots), with every literal given its exact value.
std::sqrt is modelled by Real.sqrt.
-/

namespace CelestialSim

/-- Model of glm::vec2: a pair of scalars. -/
structure Vec2 (K : Type) where
  x : K
  y : K
deriving DecidableEq, Repr

namespace Vec2

variable {K : Type} [LinearOrderedField K]

instance : Zero (Vec2 K) := ⟨⟨0, 0⟩⟩

instance : Add (Vec2 K) := ⟨fun a b => ⟨a.x + b.x, a.y + b.y⟩⟩

instance : Sub (Vec2 K) := ⟨fun a b => ⟨a.x - b.x, a.y - b.y⟩⟩

instance : Neg (Vec2 K) := ⟨fun a => ⟨-a.x, -a.y⟩⟩

instance : SMul K (Vec2 K) := ⟨fun c a => ⟨c * a.x, c * a.y⟩⟩

instance : AddCommGroup (Vec2 K) where
  add_assoc a b c := by
    cases a with | mk ax ay =>
    cases b with | mk bx bep =>
    cases c with | mk cx cy =>
    show Vec2.mk (ax + bx + cx) (ay + bep + cy)
        = Vec2.mk (ax + (bx + cx)) (ay + (bep + cy))
    congr 1 <;> ring
  zero_add a := by
    cases a with | mk ax ay =>
    show Vec2.mk (0 + ax) (0 + ay) = Vec2.mk ax ay
    congr 1 <;> ring
  add_zero a := by
    cases a with | mk ax ay =>
    show Vec2.mk (ax + 0) (ay + 0) = Vec2.mk ax ay
    congr 1 <;> ring
  add_comm a b := by
    cases a with | mk ax ay =>
    cases b with | mk bx bep =>
    show Vec2.mk (ax + bx) (ay + bep) = Vec2.mk (bx + ax) (bep + ay)
    congr 1 <;> ring
  neg_add_cancel a := by
    cases a with | mk ax ay =>
    show Vec2.mk (-ax + ax) (-ay + ay) = Vec2.mk 0 0
    congr 1 <;> ring
  sub_eq_add_neg a b := by
    cases a with | mk ax ay =>
    cases b with | mk bx bep =>
    show Vec2.mk (ax - bx) (ay - bep) = Vec2.mk (ax + -bx) (ay + -bep)
    congr 1 <;> ring
  nsmul := nsmulRec
  zsmul := zsmulRec

instance : Module K (Vec2 K) where
  one_smul a := by
    cases a with | mk ax ay =>
    show Vec2.mk (1 * ax) (1 * ay) = Vec2.mk ax ay
    congr 1 <;> ring
  mul_smul c d a := by
    cases a with | mk ax ay =>
    show Vec2.mk (c * d * ax) (c * d * ay)
        = Vec2.mk (c * (d * ax)) (c * (d * ay))
    congr 1 <;> ring
  smul_zero c := by
    show Vec2.mk (c * 0) (c * 0) = Vec2.mk 0 0
    congr 1 <;> ring
  smul_add c a b := by
    cases a with | mk ax ay =>
    cases b with | mk bx bep =>
    show Vec2.mk (c * (ax + bx)) (c * (ay + bep))
        = Vec2.mk (c * ax + c * bx) (c * ay + c * bep)
    congr 1 <;> ring
  add_smul c d a := by
    cases a with | mk ax ay =>
    show Vec2.mk ((c + d) * ax) ((c + d) * ay)
        = Vec2.mk (c * ax + d * ax) (c * ay + d * ay)
    congr 1 <;> ring
  zero_smul a := by
    cases a with | mk ax ay =>
    show Vec2.mk (0 * ax) (0 * ay) = Vec2.mk 0 0
    congr 1 <;> ring

/-- Model of glm::dot on vec2. -/
def dot (a b : Vec2 K) : K := a.x * b.x + a.y * b.y

end Vec2

/-- Model of glm::length on vec2: the Euclidean norm, with std::sqrt
modelled by Real.sqrt. -/
noncomputable def len (v : Vec2 ℝ) : ℝ := Real.sqrt (Vec2.dot v v)

/-- Model of std::clamp(v, lo, hi). -/
def clampf {K : Type} [LinearOrderedField K] (v lo hi : K) : K :=
  if v < lo then lo else if hi < v then hi else v

/-!
CircularTrail (src/core/CircularTrail.cpp).  The C++ buffer stores
glm::vec2 points; the trail never computes with the coordinates, so the
point payload is modelled by an arbitrary type α (a₀ is the
default-constructed point that std::vector::resize fills slots with).
The backing std::vector is a List of fixed length m_capacity; indices
are ℕ (the int arithmetic in LogicalToPhysical keeps every
intermediate non-negative, so ℕ arithmetic written as
head + capacity - size agrees with it).
-/

/-- Model of class CircularTrail: backing buffer, head, size, capacity. -/
structure CircularTrail (α : Type) where
  points : List α
  head : ℕ
  size : ℕ
  capacity : ℕ
deriving DecidableEq, Repr

namespace CircularTrail

/-- Model of CircularTrail::CircularTrail(int capacity):
capacity is clamped to at least 1 and the buffer is resized to it. -/
def make {α : Type} (a₀ : α) (cap : ℤ) : CircularTrail α :=
  let c : ℕ := (max 1 cap).toNat
  ⟨List.replicate c a₀, 0, 0, c⟩

/-- Model of CircularTrail::AddPoint: write at head, advance head
circularly, grow size up to capacity. -/
def AddPoint {α : Type} (t : CircularTrail α) (p : α) : CircularTrail α :=
  { t with
    points := t.points.set t.head p
    head := (t.head + 1) % t.capacity
    size := if t.size < t.capacity then t.size + 1 else t.size }

/-- Model of CircularTrail::LogicalToPhysical: oldest point lives at
(head - size + capacity) % capacity and logical index i is offset from
there. -/
def LogicalToPhysical {α : Type} (t : CircularTrail α) (i : ℕ) : ℕ :=
  ((t.head + t.capacity - t.size) % t.capacity + i) % t.capacity

/-- Model of CircularTrail::GetPoint: the out_of_range throw is an
Option none. -/
def GetPoint {α : Type} (t : CircularTrail α) (i : ℕ) : Option α :=
  if i < t.size then t.points[t.LogicalToPhysical i]? else none

/-- Pushing a whole sequence of points in order (repeated AddPoint). -/
def AddAll {α : Type} (t : CircularTrail α) (ps : List α) : CircularTrail α :=
  ps.foldl AddPoint t

/-- Well-formedness maintained by the constructor and AddPoint. -/
def WF {α : Type} (t : CircularTrail α) : Prop :=
  t.points.length = t.capacity ∧ 1 ≤ t.capacity ∧ t.size ≤ t.capacity ∧
    t.head < t.capacity

end CircularTrail

/-!
Body (src/core/Body.cpp, include/core/Particle.h constants).  The
per-body CircularTrail is modelled above and is never read by the
physics code under verification, so it is not a field here.
-/

/-- Model of class Body: kinematic state, mass, density, derived radius,
colour omitted (never read by physics), and the interaction flags. -/
structure Body (K : Type) where
  position : Vec2 K
  velocity : Vec2 K
  acceleration : Vec2 K
  force : Vec2 K
  mass : K
  density : K
  radius : K
  selected : Bool
  beingDragged : Bool
  fixed : Bool
deriving DecidableEq, Repr

namespace Body

/-- Model of Body::UpdateRadius: r = clamp(sqrt(m / (3.14159 * rho)),
MIN_RADIUS = 2, MAX_RADIUS = 100).  The source uses the literal
3.14159f, not pi. -/
noncomputable def UpdateRadius (b : Body ℝ) : Body ℝ :=
  { b with radius := clampf (Real.sqrt (b.mass / (3.14159 * b.density))) 2 100 }

/-- Model of Body::SetMass: m = max(0.1, mass) then UpdateRadius. -/
noncomputable def SetMass (b : Body ℝ) (m : ℝ) : Body ℝ :=
  UpdateRadius { b with mass := max 0.1 m }

/-- Model of Body::SetDensity: rho = max(0.001, density) then
UpdateRadius. -/
noncomputable def SetDensity (b : Body ℝ) (ρ : ℝ) : Body ℝ :=
  UpdateRadius { b with density := max 0.001 ρ }

end Body

/-!
Collision resolution (PhysicsEngine::ResolveCollision, first document of
src/physics/PhysicsEngine.cpp, lines 340-376).
-/

/-- Model of PhysicsEngine::ResolveCollision: positional separation of
half the overlap for each movable body, then an impulse-based elastic
response; fixed or dragged bodies are never moved. -/
noncomputable def ResolveCollision (restitution : ℝ) (a b : Body ℝ) :
    Body ℝ × Body ℝ :=
  let delta := b.position - a.position
  let distance := len delta
  let minDistance := a.radius + b.radius
  if distance < minDistance ∧ distance > 0 then
    let separation := ((minDistance - distance) / distance * 0.5) • delta
    let a1 := if a.fixed = false ∧ a.beingDragged = false then
        { a with position := a.position - separation } else a
    let b1 := if b.fixed = false ∧ b.beingDragged = false then
        { b with position := b.position + separation } else b
    let normal := (1 / distance) • delta
    let relativeVelocity := b.velocity - a.velocity
    let velocityAlongNormal := Vec2.dot relativeVelocity normal
    if velocityAlongNormal > 0 then (a1, b1)
    else
      let impulse := (-(1 + restitution) * velocityAlongNormal) /
        (1 / a.mass + 1 / b.mass)
      let impulseVector := impulse • normal
      let a2 := if a.fixed = false ∧ a.beingDragged = false then
          { a1 with velocity := a1.velocity - (1 / a.mass) • impulseVector }
        else a1
      let b2 := if b.fixed = false ∧ b.beingDragged = false then
          { b1 with velocity := b1.velocity + (1 / b.mass) • impulseVector }
        else b1
      (a2, b2)
  else (a, b)

/-!
Leapfrog integration (PhysicsEngine::IntegrateLeapfrog, first document
of src/physics/PhysicsEngine.cpp, lines 253-292).
-/

/-- Model of the velocity cap ending PhysicsEngine::IntegrateLeapfrog:
normalize(v) * maxVelocity when the speed exceeds maxVelocity = 500. -/
noncomputable def clampVelocity (v : Vec2 ℝ) : Vec2 ℝ :=
  if len v > 500 then (500 / len v) • v else v

/-- Model of the per-body update of PhysicsEngine::IntegrateLeapfrog:
damp the velocity, half-kick with a = F/m, drift, second half-kick with
the same a, then cap the speed; fixed or dragged bodies are skipped. -/
noncomputable def IntegrateLeapfrogBody (damping dt : ℝ) (b : Body ℝ) : Body ℝ :=
  if b.fixed || b.beingDragged then b
  else
    let dtDividedBy2 := dt * 0.5
    let velocity := damping • b.velocity
    let acceleration := (1 / b.mass) • b.force
    let velocity2 := velocity + dtDividedBy2 • acceleration
    let position2 := b.position + dt • velocity2
    let velocity3 := velocity2 + dtDividedBy2 • acceleration
    { b with position := position2, velocity := clampVelocity velocity3 }

/-- Model of the loop in PhysicsEngine::IntegrateLeapfrog over all
bodies. -/
noncomputable def IntegrateLeapfrog (damping dt : ℝ) (bodies : List (Body ℝ)) :
    List (Body ℝ) :=
  bodies.map (IntegrateLeapfrogBody damping dt)

/-!
Force kernels (first document of src/physics/PhysicsEngine.cpp).
MAX_FORCE = 10000 there.  The enumerated index/body pairs model the
indexed loops of the source.
-/

/-- List of (index, element) pairs starting at index k; models an indexed
loop over a std::vector. -/
def enumFrom {β : Type} (k : ℕ) : List β → List (ℕ × β)
  | [] => []
  | b :: bs => (k, b) :: enumFrom (k + 1) bs

/-- Model of Body::ClearForce. -/
def ClearForce {K : Type} [LinearOrderedField K] (b : Body K) : Body K :=
  { b with force := ⟨0, 0⟩ }

/-- Model of PhysicsEngine::CalculateGravitationalForce (lines 740-764):
the returned quantity is G·mB/(d²+ε²) in the direction from A to B; the
receiver's mass is NOT a factor (the integrator divides by it). -/
noncomputable def CalculateGravitationalForce (positionA positionB : Vec2 ℝ)
    (massB G softeningLength : ℝ) : Vec2 ℝ :=
  let direction := positionB - positionA
  let distanceSquared := Vec2.dot direction direction
  let softenedDistanceSquared :=
    distanceSquared + softeningLength * softeningLength
  let forceMagnitude := G * massB / softenedDistanceSquared
  if distanceSquared > 1e-10 then
    (forceMagnitude * (1 / Real.sqrt distanceSquared)) • direction
  else 0

/-- Model of the loop body of PhysicsEngine::CalculateForcesDirect: the
shared kernel followed by the per-contribution cap at MAX_FORCE = 10⁴. -/
noncomputable def DirectPairContribution (positionA positionB : Vec2 ℝ)
    (massB G softening : ℝ) : Vec2 ℝ :=
  let force := CalculateGravitationalForce positionA positionB massB G softening
  let forceMagnitude := len force
  if forceMagnitude > 10000 then (10000 / forceMagnitude) • force else force

/-- Model of PhysicsEngine::CalculateForcesDirect: every non-fixed
receiver accumulates the capped pairwise contributions from all other
bodies and applies the total to its force. -/
noncomputable def CalculateForcesDirect (G softening : ℝ)
    (bodies : List (Body ℝ)) : List (Body ℝ) :=
  (enumFrom 0 bodies).map (fun p =>
    if p.2.fixed then p.2
    else
      let totalForce := (enumFrom 0 bodies).foldl
        (fun acc q =>
          if q.1 = p.1 then acc
          else acc + DirectPairContribution p.2.position q.2.position
            q.2.mass G softening) 0
      { p.2 with force := p.2.force + totalForce })

/-- Model of std::pow(x, 1.5f) on the non-negative inputs
d² + ε² the blocked and Morton kernels feed it. -/
noncomputable def pow15 (x : ℝ) : ℝ := x * Real.sqrt x

/-- Model of the inner-loop body of PhysicsEngine::CalculateForcesOptimized
(blocked direct, lines 432-495): G·mB/(d²+ε²)^{3/2} • Δ guarded by
denominator > 10⁻¹⁰ — and NO cap at MAX_FORCE. -/
noncomputable def BlockedPairContribution (positionA positionB : Vec2 ℝ)
    (massB G softeningSq : ℝ) : Vec2 ℝ :=
  let v := positionB - positionA
  let distanceSquared := Vec2.dot v v
  let dist15 := pow15 (distanceSquared + softeningSq)
  if dist15 > 1e-10 then (G * massB / dist15) • v else 0

/-- Model of PhysicsEngine::CalculateForcesOptimized.  The source walks
receivers in 32-wide blocks purely for cache locality; each receiver's
accumulated force is independent of the blocking, so receivers are
mapped in index order. -/
noncomputable def CalculateForcesOptimized (G softening : ℝ)
    (bodies : List (Body ℝ)) : List (Body ℝ) :=
  let cleared := bodies.map ClearForce
  (enumFrom 0 cleared).map (fun p =>
    if p.2.fixed then p.2
    else
      let totalForce := (enumFrom 0 cleared).foldl
        (fun acc q =>
          if q.1 = p.1 then acc
          else acc + BlockedPairContribution p.2.position q.2.position
            q.2.mass G (softening * softening)) 0
      { p.2 with force := p.2.force + totalForce })

/-- Model of the inner-loop body of
PhysicsEngine::CalculateForcesSpatiallyOptimized (Morton-ordered direct,
lines 497-569): textually the same kernel as the blocked variant, again
with NO cap at MAX_FORCE. -/
noncomputable def MortonPairContribution (positionA positionB : Vec2 ℝ)
    (massB G softeningSq : ℝ) : Vec2 ℝ :=
  let v := positionB - positionA
  let distanceSquared := Vec2.dot v v
  let dist15 := pow15 (distanceSquared + softeningSq)
  if dist15 > 1e-10 then (G * massB / dist15) • v else 0

/-- Model of PhysicsEngine::CalculateForcesSpatiallyOptimized.  The
source first sorts the indices by an interleaved-bits spatial hash; the
resulting order (a permutation of the indices, here the parameter
sortedIndices) only drives iteration order and cache locality.  Receiver
idx_i accumulates contributions over all positions idx_j ≠ idx_i of the
sorted list. -/
noncomputable def CalculateForcesSpatiallyOptimized (G softening : ℝ)
    (sortedIndices : List ℕ) (bodies : List (Body ℝ)) : List (Body ℝ) :=
  let cleared := bodies.map ClearForce
  (enumFrom 0 sortedIndices).foldl (fun bs q =>
    match bs[q.2]? with
    | none => bs
    | some bodyA =>
      if bodyA.fixed then bs
      else
        let totalForce := (enumFrom 0 sortedIndices).foldl
          (fun acc r =>
            if r.1 = q.1 then acc
            else
              match cleared[r.2]? with
              | none => acc
              | some bodyB => acc + MortonPairContribution bodyA.position
                  bodyB.position bodyB.mass G (softening * softening)) 0
        bs.set q.2 { bodyA with force := bodyA.force + totalForce }) cleared

/-!
Barnes–Hut quadtree (include/physics/BarnesHut.h and the first document
of src/unnamed/part_003).  Bodies are referenced from nodes by their
index in the body list (modelling the Body* back-pointers; pointer
equality becomes index equality).  The four child unique_ptr slots are
either all null (children = []) or all populated (children of length 4,
in quadrant order) — Subdivide always fills all four and nothing ever
resets a single slot.  Tree insertion is modelled with recursion fuel
because the source loop re-descends after subdividing.
-/

/-- Model of struct QuadTreeNode (BarnesHut.h lines 15-50). -/
inductive QuadTreeNode (K : Type) : Type where
  | mk (center : Vec2 K) (size : K) (totalMass : K) (centerOfMass : Vec2 K)
      (children : List (QuadTreeNode K)) (body : Option ℕ) (isLeaf : Bool)

namespace QuadTreeNode

variable {K : Type} [LinearOrderedField K]

def center : QuadTreeNode K → Vec2 K
  | .mk c _ _ _ _ _ _ => c

def size : QuadTreeNode K → K
  | .mk _ s _ _ _ _ _ => s

def totalMass : QuadTreeNode K → K
  | .mk _ _ m _ _ _ _ => m

def centerOfMass : QuadTreeNode K → Vec2 K
  | .mk _ _ _ com _ _ _ => com

def children : QuadTreeNode K → List (QuadTreeNode K)
  | .mk _ _ _ _ ch _ _ => ch

def body : QuadTreeNode K → Option ℕ
  | .mk _ _ _ _ _ b _ => b

def isLeaf : QuadTreeNode K → Bool
  | .mk _ _ _ _ _ _ leaf => leaf

/-- Model of QuadTreeNode::Contains: closed box
[center - size/2, center + size/2] on both axes. -/
def Contains (n : QuadTreeNode K) (point : Vec2 K) : Bool :=
  let halfSize := n.size * 0.5
  decide (n.center.x - halfSize ≤ point.x) &&
    decide (point.x ≤ n.center.x + halfSize) &&
    decide (n.center.y - halfSize ≤ point.y) &&
    decide (point.y ≤ n.center.y + halfSize)

/-- Model of QuadTreeNode::GetQuadrant: bit 0 for x > center.x, bit 1
for y > center.y. -/
def GetQuadrant (n : QuadTreeNode K) (point : Vec2 K) : ℕ :=
  (if n.center.x < point.x then 1 else 0) +
    (if n.center.y < point.y then 2 else 0)

/-- Model of QuadTreeNode::GetChildCenter: offset by a quarter of the
node size in each axis according to the quadrant bits. -/
def GetChildCenter (n : QuadTreeNode K) (quadrant : ℕ) : Vec2 K :=
  let quarter := n.size * 0.25
  ⟨n.center.x + (if quadrant &&& 1 ≠ 0 then quarter else -quarter),
   n.center.y + (if quadrant &&& 2 ≠ 0 then quarter else -quarter)⟩

/-- Replace the children list. -/
def withChildren : QuadTreeNode K → List (QuadTreeNode K) → QuadTreeNode K
  | .mk c s m com _ b leaf, ch => .mk c s m com ch b leaf

/-- Set the stored body pointer. -/
def setBody : QuadTreeNode K → Option ℕ → QuadTreeNode K
  | .mk c s m com ch _ leaf, b => .mk c s m com ch b leaf

/-- Clear the body pointer and mark the node internal (the two
assignments before Subdivide in InsertBody). -/
def clearToInternal : QuadTreeNode K → QuadTreeNode K
  | .mk c s m com ch _ _ => .mk c s m com ch none false

/-- Apply f to child `quadrant` when that slot is non-null, else leave
the node unchanged (the null checks in InsertBody). -/
def updateChild (n : QuadTreeNode K) (quadrant : ℕ)
    (f : QuadTreeNode K → QuadTreeNode K) : QuadTreeNode K :=
  match n.children[quadrant]? with
  | none => n
  | some c => n.withChildren (n.children.set quadrant (f c))

end QuadTreeNode

/-- Default body used to model dereferencing a Body* index that is out
of range in the model (never happens for trees built from real body
lists). -/
def defaultBody {K : Type} [LinearOrderedField K] : Body K :=
  ⟨⟨0, 0⟩, ⟨0, 0⟩, ⟨0, 0⟩, ⟨0, 0⟩, 1, 1, 1, false, false, false⟩

/-- The body referenced by index i. -/
def bodyAt {K : Type} [LinearOrderedField K] (bodies : List (Body K))
    (i : ℕ) : Body K :=
  bodies.getD i defaultBody

/-- Model of BarnesHutTree::Subdivide: create the four children with
halved size at the four child centers (freshly default-constructed
nodes: mass 0, centre of mass (0,0), no grandchildren, leaf). -/
def Subdivide {K : Type} [LinearOrderedField K] (n : QuadTreeNode K) :
    QuadTreeNode K :=
  n.withChildren ([0, 1, 2, 3].map (fun i =>
    QuadTreeNode.mk (n.GetChildCenter i) (n.size * 0.5) 0 ⟨0, 0⟩ [] none true))

/-- Model of BarnesHutTree::InsertBody (iterative, first document of
part_003 lines 114-170), with fuel bounding the loop re-descent after a
subdivision.  bi is the index of the body being inserted. -/
def InsertBody {K : Type} [LinearOrderedField K] (bodies : List (Body K)) :
    ℕ → QuadTreeNode K → ℕ → QuadTreeNode K
  | 0, node, _ => node
  | fuel + 1, node, bi =>
    let pos := (bodyAt bodies bi).position
    if node.Contains pos = false then node
    else if node.isLeaf then
      match node.body with
      | none => node.setBody (some bi)
      | some oi =>
        let delta := (bodyAt bodies oi).position - pos
        if Vec2.dot delta delta < 1e-12 then node
        else
          let subdivided := Subdivide node.clearToInternal
          let existingQuadrant :=
            subdivided.GetQuadrant (bodyAt bodies oi).position
          let n1 := subdivided.updateChild existingQuadrant
            (fun c => InsertBody bodies fuel c oi)
          let newQuadrant := n1.GetQuadrant pos
          n1.updateChild newQuadrant (fun c => InsertBody bodies fuel c bi)
    else
      let quadrant := node.GetQuadrant pos
      node.updateChild quadrant (fun c => InsertBody bodies fuel c bi)

/-- Model of BarnesHutTree::CalculateBounds (first document of part_003
lines 315-357): bounding box of all positions, 20% padding, floors of
0.1 per axis and MIN_NODE_SIZE = 0.001 overall. -/
def CalculateBounds {K : Type} [LinearOrderedField K]
    (bodies : List (Body K)) : Vec2 K × K :=
  match bodies with
  | [] => (⟨0, 0⟩, 1)
  | b :: rest =>
    let first := b.position
    let mm := rest.foldl
      (fun (acc : Vec2 K × Vec2 K) b2 =>
        (⟨min acc.1.x b2.position.x, min acc.1.y b2.position.y⟩,
         ⟨max acc.2.x b2.position.x, max acc.2.y b2.position.y⟩))
      (first, first)
    let boundsCenter : Vec2 K := (0.5 : K) • (mm.1 + mm.2)
    let sizeX := max (mm.2.x - mm.1.x) 0.1
    let sizeY := max (mm.2.y - mm.1.y) 0.1
    let size0 := max sizeX sizeY
    let size1 := size0 * 1.2
    let size2 := max size1 0.001
    (boundsCenter, size2)

mutual

/-- Model of BarnesHutTree::UpdateMassAndCenter (first document of
part_003 lines 181-216): a non-empty leaf takes its body's mass and
position; an empty leaf gets mass 0 and centre of mass (0,0); an
internal node sums the positive child masses and weighted positions,
divides once when the total exceeds 1e-9, and falls back to the node's
geometric centre otherwise. -/
def UpdateMassAndCenter {K : Type} [LinearOrderedField K]
    (bodies : List (Body K)) : QuadTreeNode K → QuadTreeNode K
  | .mk c s _ _ ch b leaf =>
    if leaf then
      match b with
      | some i => .mk c s (bodyAt bodies i).mass (bodyAt bodies i).position
          ch b leaf
      | none => .mk c s 0 ⟨0, 0⟩ ch b leaf
    else
      let ch2 := UpdateChildrenMass bodies ch
      let total := ch2.foldl
        (fun acc child =>
          if 0 < child.totalMass then acc + child.totalMass else acc) 0
      let weightedPositionSum := ch2.foldl
        (fun acc child =>
          if 0 < child.totalMass then
            acc + child.totalMass • child.centerOfMass
          else acc) (⟨0, 0⟩ : Vec2 K)
      if 1e-9 < total then
        .mk c s total ((1 / total) • weightedPositionSum) ch2 b leaf
      else
        .mk c s total c ch2 b leaf

/-- UpdateMassAndCenter over the four child slots. -/
def UpdateChildrenMass {K : Type} [LinearOrderedField K]
    (bodies : List (Body K)) :
    List (QuadTreeNode K) → List (QuadTreeNode K)
  | [] => []
  | t :: ts => UpdateMassAndCenter bodies t :: UpdateChildrenMass bodies ts

end

/-- Model of BarnesHutTree::BuildTree (first document of part_003 lines
19-89): empty input keeps no tree; otherwise a fresh root over the
computed bounds, insertion of every body whose position the root
contains, then the mass/centre pass. -/
def BuildTree {K : Type} [LinearOrderedField K] (fuel : ℕ)
    (bodies : List (Body K)) : Option (QuadTreeNode K) :=
  if bodies.isEmpty then none
  else
    let bounds := CalculateBounds bodies
    let root0 : QuadTreeNode K :=
      .mk bounds.1 bounds.2 0 ⟨0, 0⟩ [] none true
    let rootIns := (enumFrom 0 bodies).foldl
      (fun r p =>
        if r.Contains p.2.position then InsertBody bodies fuel r p.1 else r)
      root0
    some (UpdateMassAndCenter bodies rootIns)

mutual

/-- All nodes of a tree (the node itself and, recursively, its
children). -/
def allNodes {K : Type} : QuadTreeNode K → List (QuadTreeNode K)
  | .mk c s m com ch b leaf =>
    QuadTreeNode.mk c s m com ch b leaf :: allNodesList ch

/-- All nodes of a list of trees. -/
def allNodesList {K : Type} : List (QuadTreeNode K) → List (QuadTreeNode K)
  | [] => []
  | t :: ts => allNodes t ++ allNodesList ts

end

/-!
Barnes–Hut force traversal (BarnesHutTree::CalculateForceIterative,
first document of part_003 lines 218-312).  The stack-driven loop visits
exactly the nodes this recursion visits, and its force accumulation is a
sum of the same per-node contributions (addition order differs only by
the stack discipline, which exact arithmetic ignores).  Along with the
force the model returns the visit log: one entry per node that passes
the mass and self-body gates, with true when the node is handled without
descending (the point-mass branches) and false when its children are
pushed.  SOFTENING_LENGTH = 0.01 is the node-local constant from
BarnesHut.h. -/

mutual

/-- Force contribution of one (sub)tree on the target body, with the
visit log. -/
noncomputable def CalculateForceNode (selfIdx : ℕ) (pos : Vec2 ℝ)
    (theta G : ℝ) : QuadTreeNode ℝ → Vec2 ℝ × List (QuadTreeNode ℝ × Bool)
  | .mk c s m com ch b leaf =>
    let node : QuadTreeNode ℝ := .mk c s m com ch b leaf
    if m ≤ 0 then (0, [])
    else if leaf = true ∧ b = some selfIdx then (0, [])
    else
      let bodyToNode := com - pos
      let distanceSq := Vec2.dot bodyToNode bodyToNode
      let distance := Real.sqrt distanceSq
      let sizeOverDist := s / (distance + 1e-10)
      if sizeOverDist < theta then
        (if distanceSq ≤ 0 then 0
         else ((G * m / (distanceSq + 0.01 * 0.01)) / distance) • bodyToNode,
         [(node, true)])
      else if leaf then
        (match b with
         | none => 0
         | some _ =>
           if distanceSq ≤ 0 then 0
           else ((G * m / (distanceSq + 0.01 * 0.01)) / distance) • bodyToNode,
         [(node, true)])
      else
        let rest := CalculateForceChildren selfIdx pos theta G ch
        (rest.1, (node, false) :: rest.2)

/-- Sum of the children's contributions and concatenation of their
logs. -/
noncomputable def CalculateForceChildren (selfIdx : ℕ) (pos : Vec2 ℝ)
    (theta G : ℝ) :
    List (QuadTreeNode ℝ) → Vec2 ℝ × List (QuadTreeNode ℝ × Bool)
  | [] => (0, [])
  | t :: ts =>
    let r1 := CalculateForceNode selfIdx pos theta G t
    let r2 := CalculateForceChildren selfIdx pos theta G ts
    (r1.1 + r2.1, r1.2 ++ r2.2)

end

/-- Model of BarnesHutTree::CalculateForce /
CalculateForceIterative's entry: no tree or a massless root contributes
nothing. -/
noncomputable def CalculateForce (selfIdx : ℕ) (pos : Vec2 ℝ) (theta G : ℝ) :
    Option (QuadTreeNode ℝ) → Vec2 ℝ
  | none => 0
  | some root =>
    if root.totalMass ≤ 0 then 0
    else (CalculateForceNode selfIdx pos theta G root).1

/-- The traversal's visit log from a given root. -/
noncomputable def ForceVisitLog (selfIdx : ℕ) (pos : Vec2 ℝ) (theta G : ℝ)
    (root : QuadTreeNode ℝ) : List (QuadTreeNode ℝ × Bool) :=
  (CalculateForceNode selfIdx pos theta G root).2

/-- Model of PhysicsEngine::CalculateForcesBarnesHut: build the tree,
then every non-fixed body accumulates the tree force at its position
(the tree applies NO per-contribution cap). -/
noncomputable def CalculateForcesBarnesHut (theta G : ℝ) (fuel : ℕ)
    (bodies : List (Body ℝ)) : List (Body ℝ) :=
  let root := BuildTree fuel bodies
  (enumFrom 0 bodies).map (fun p =>
    if p.2.fixed then p.2
    else { p.2 with
      force := p.2.force + CalculateForce p.1 p.2.position theta G root })

/-!
Engine facade (PhysicsEngine::Update / CalculateForces /
HandleCollisions, first document of src/physics/PhysicsEngine.cpp).
-/

/-- Model of the PhysicsConfig fields the verified pipeline reads. -/
structure PhysicsConfig where
  gravitationalConstant : ℝ
  softeningLength : ℝ
  dampingFactor : ℝ
  barnesHutTheta : ℝ
  restitution : ℝ
  useGPU : Bool
  useBarnesHut : Bool
  enableCollisions : Bool
  maxBodiesForDirect : ℕ

/-- Model of PhysicsEngine::CalculateForces: clear every body's force,
then dispatch on GPU availability (the disabled GPU path falls back to
the direct kernel), the Barnes–Hut flag and threshold, and the body
count.  sortedIndices parametrises the Morton hash order and
gpuAvailable mirrors m_gpuAvailable. -/
noncomputable def CalculateForces (cfg : PhysicsConfig) (gpuAvailable : Bool)
    (sortedIndices : List ℕ) (fuel : ℕ) (bodies : List (Body ℝ)) :
    List (Body ℝ) :=
  let cleared := bodies.map ClearForce
  if cfg.useGPU && gpuAvailable then
    CalculateForcesDirect cfg.gravitationalConstant cfg.softeningLength cleared
  else if cfg.useBarnesHut && decide (cfg.maxBodiesForDirect < bodies.length) then
    CalculateForcesBarnesHut cfg.barnesHutTheta cfg.gravitationalConstant fuel
      cleared
  else if 100 < bodies.length then
    CalculateForcesSpatiallyOptimized cfg.gravitationalConstant
      cfg.softeningLength sortedIndices cleared
  else if 50 < bodies.length then
    CalculateForcesOptimized cfg.gravitationalConstant cfg.softeningLength
      cleared
  else
    CalculateForcesDirect cfg.gravitationalConstant cfg.softeningLength cleared

/-- Index pairs (i, j) with i < j < n, in the order of the double loop
of PhysicsEngine::HandleCollisions. -/
def pairList (n : ℕ) : List (ℕ × ℕ) :=
  (List.range n).foldr
    (fun i acc => ((List.range n).drop (i + 1)).map (fun j => (i, j)) ++ acc) []

/-- Model of Body::IsColliding (used by PhysicsEngine::CheckCollision):
centre distance at most the radius sum. -/
noncomputable def IsColliding (a b : Body ℝ) : Prop :=
  len (a.position - b.position) ≤ a.radius + b.radius

noncomputable instance (a b : Body ℝ) : Decidable (IsColliding a b) := by
  unfold IsColliding
  infer_instance

/-- Model of PhysicsEngine::HandleCollisions: the i<j double loop,
resolving each detected pair in place. -/
noncomputable def HandleCollisions (restitution : ℝ)
    (bodies : List (Body ℝ)) : List (Body ℝ) :=
  (pairList bodies.length).foldl
    (fun bs ij =>
      match bs[ij.1]?, bs[ij.2]? with
      | some a, some b =>
        if IsColliding a b then
          let r := ResolveCollision restitution a b
          (bs.set ij.1 r.1).set ij.2 r.2
        else bs
      | _, _ => bs)
    bodies

/-- Model of the state change of PhysicsEngine::Update with step size dt
(the caller's deltaTime already multiplied by timeScale, adaptive
stepping off): forces, then collisions when enabled, then leapfrog. -/
noncomputable def PhysicsStep (cfg : PhysicsConfig) (gpuAvailable : Bool)
    (sortedIndices : List ℕ) (fuel : ℕ) (dt : ℝ)
    (bodies : List (Body ℝ)) : List (Body ℝ) :=
  if bodies.isEmpty then bodies
  else
    let afterForces := CalculateForces cfg gpuAvailable sortedIndices fuel
      bodies
    let afterCollisions :=
      if cfg.enableCollisions then
        HandleCollisions cfg.restitution afterForces
      else afterForces
    IntegrateLeapfrog cfg.dampingFactor dt afterCollisions

/-- n iterated physics steps. -/
noncomputable def PhysicsStepN (cfg : PhysicsConfig) (gpuAvailable : Bool)
    (sortedIndices : List ℕ) (fuel : ℕ) (dt : ℝ) :
    ℕ → List (Body ℝ) → List (Body ℝ)
  | 0, bodies => bodies
  | n + 1, bodies =>
    PhysicsStepN cfg gpuAvailable sortedIndices fuel dt n
      (PhysicsStep cfg gpuAvailable sortedIndices fuel dt bodies)

/-- Specification predicate for C3 (from the spec's quadtree
invariants, adjusted to what UpdateMassAndCenter establishes): a
non-empty leaf carries its body's mass and position; an empty leaf
carries mass 0 and centre of mass (0,0); an internal node's mass is the
sum of its children's masses, its centre of mass is the mass-weighted
mean of its children's centres of mass when the mass exceeds 10⁻⁹, and
the node's geometric centre otherwise. -/
def MassComInvariant {K : Type} [LinearOrderedField K]
    (bodies : List (Body K)) (n : QuadTreeNode K) : Prop :=
  (n.isLeaf = true →
    (∀ i, n.body = some i →
      n.totalMass = (bodyAt bodies i).mass ∧
      n.centerOfMass = (bodyAt bodies i).position) ∧
    (n.body = none → n.totalMass = 0 ∧ n.centerOfMass = ⟨0, 0⟩)) ∧
  (n.isLeaf = false →
    n.totalMass = (n.children.map QuadTreeNode.totalMass).sum ∧
    ((1e-9 : K) < n.totalMass →
      n.centerOfMass = (1 / n.totalMass) •
        (n.children.map (fun c => c.totalMass • c.centerOfMass)).sum) ∧
    (¬(1e-9 : K) < n.totalMass → n.centerOfMass = n.center))

/-- Leaves of the C++ tree never hold children: Subdivide fills all four
slots only after the node is marked internal. -/
def LeavesChildless {K : Type} (t : QuadTreeNode K) : Prop :=
  ∀ n ∈ allNodes t, n.isLeaf = true → n.children = []

/-!
Two-body tree evaluation (shared by C1 and C4): BuildTree on bodies A at
the origin and B at (d,0), masses mA and mB, produces the concrete
four-child tree below.
-/

def twoBodies (d mA mB : ℝ) : List (Body ℝ) :=
  [⟨⟨0, 0⟩, ⟨0, 0⟩, ⟨0, 0⟩, ⟨0, 0⟩, mA, 1, 2, false, false, false⟩,
   ⟨⟨d, 0⟩, ⟨0, 0⟩, ⟨0, 0⟩, ⟨0, 0⟩, mB, 1, 2, false, false, false⟩]

/-!
C7: fixed-body invariance through the whole physics pipeline.
-/

/-- Relation between a body list and its update by one pipeline stage:
the length is unchanged, every body keeps its fixed and beingDragged
flags, and a fixed body keeps its position and velocity. -/
def PreservesFixed (bs bs' : List (Body ℝ)) : Prop :=
  bs'.length = bs.length ∧
  ∀ (i : ℕ) (a : Body ℝ), bs[i]? = some a →
    ∃ a' : Body ℝ, bs'[i]? = some a' ∧
      a'.fixed = a.fixed ∧ a'.beingDragged = a.beingDragged ∧
      (a.fixed = true → a'.position = a.position ∧ a'.velocity = a.velocity)

namespace Vec2

variable {K : Type} [LinearOrderedField K]

@[ext]
theorem ext {K : Type} {a b : Vec2 K} (hx : a.x = b.x) (hy : a.y = b.y) : a = b := by
  cases a
  cases b
  simp_all

@[simp] theorem add_x (a b : Vec2 K) : (a + b).x = a.x + b.x := rfl

@[simp] theorem add_y (a b : Vec2 K) : (a + b).y = a.y + b.y := rfl

@[simp] theorem sub_x (a b : Vec2 K) : (a - b).x = a.x - b.x := rfl

@[simp] theorem sub_y (a b : Vec2 K) : (a - b).y = a.y - b.y := rfl

@[simp] theorem neg_x (a : Vec2 K) : (-a).x = -a.x := rfl

@[simp] theorem neg_y (a : Vec2 K) : (-a).y = -a.y := rfl

@[simp] theorem smul_x (c : K) (a : Vec2 K) : (c • a).x = c * a.x := rfl

@[simp] theorem smul_y (c : K) (a : Vec2 K) : (c • a).y = c * a.y := rfl

@[simp] theorem zero_x : (0 : Vec2 K).x = 0 := rfl

@[simp] theorem zero_y : (0 : Vec2 K).y = 0 := rfl

theorem zero_def : (0 : Vec2 K) = ⟨0, 0⟩ := rfl

theorem add_def (a b : Vec2 K) : a + b = ⟨a.x + b.x, a.y + b.y⟩ := rfl

theorem sub_def (a b : Vec2 K) : a - b = ⟨a.x - b.x, a.y - b.y⟩ := rfl

theorem neg_def (a : Vec2 K) : -a = ⟨-a.x, -a.y⟩ := rfl

theorem smul_def (c : K) (a : Vec2 K) : c • a = ⟨c * a.x, c * a.y⟩ := rfl

end Vec2

theorem len_nonneg (v : Vec2 ℝ) : 0 ≤ len v := Real.sqrt_nonneg _

theorem len_eq_sqrt (v : Vec2 ℝ) : len v = Real.sqrt (v.x ^ 2 + v.y ^ 2) := by
  unfold len Vec2.dot
  ring_nf

theorem len_smul (c : ℝ) (v : Vec2 ℝ) : len (c • v) = |c| * len v := by
  rw [len_eq_sqrt, len_eq_sqrt, Vec2.smul_def]
  have h : (c * v.x) ^ 2 + (c * v.y) ^ 2 = c ^ 2 * (v.x ^ 2 + v.y ^ 2) := by ring
  rw [h, Real.sqrt_mul (sq_nonneg c), Real.sqrt_sq_eq_abs]

theorem len_pos_of_sq (v : Vec2 ℝ) (h : 0 < Vec2.dot v v) : 0 < len v :=
  Real.sqrt_pos.mpr h

theorem len_single_x (c : ℝ) : len ⟨c, 0⟩ = |c| := by
  rw [len_eq_sqrt]
  simp [Real.sqrt_sq_eq_abs]

namespace CircularTrail

variable {α : Type}

theorem make_wf (a₀ : α) (cap : ℤ) : (make a₀ cap).WF := by
  have h1 : (1 : ℤ) ≤ max 1 cap := le_max_left _ _
  have h2 : 1 ≤ (max 1 cap).toNat := by omega
  refine ⟨List.length_replicate _ _, h2, Nat.zero_le _, ?_⟩
  exact h2

theorem wf_addPoint {t : CircularTrail α} (h : t.WF) (p : α) :
    (t.AddPoint p).WF := by
  obtain ⟨hl, hc, hs, hh⟩ := h
  refine ⟨?_, hc, ?_, ?_⟩
  · simpa [AddPoint] using hl
  · simp only [AddPoint]
    split <;> omega
  · simp only [AddPoint]
    exact Nat.mod_lt _ (by omega)

theorem capacity_addPoint (t : CircularTrail α) (p : α) :
    (t.AddPoint p).capacity = t.capacity := rfl

theorem getPoint_def (t : CircularTrail α) (i : ℕ) :
    t.GetPoint i =
      if i < t.size then
        t.points[(t.head + t.capacity - t.size + i) % t.capacity]?
      else none := by
  unfold GetPoint LogicalToPhysical
  rw [Nat.mod_add_mod]

theorem index_ne_head {c head d : ℕ} (hh : head < c) (hd0 : 0 < d)
    (hdc : d < c) : (head + d) % c ≠ head := by
  intro heq
  have h1 : head % c = (head + d) % c := by
    rw [heq, Nat.mod_eq_of_lt hh]
  have h2 : c ∣ (head + d) - head := (Nat.modEq_iff_dvd' (Nat.le_add_right _ _)).mp h1
  simp only [Nat.add_sub_cancel_left] at h2
  exact absurd (Nat.le_of_dvd hd0 h2) (by omega)

theorem getPoint_addPoint_of_lt {t : CircularTrail α} (hwf : t.WF) (p : α)
    (hsz : t.size < t.capacity) (i : ℕ) (hi : i ≤ t.size) :
    (t.AddPoint p).GetPoint i = if i = t.size then some p else t.GetPoint i := by
  obtain ⟨hl, hc, hs, hh⟩ := hwf
  have hsz' : (t.AddPoint p).size = t.size + 1 := by
    simp [AddPoint, hsz]
  rw [getPoint_def, hsz', if_pos (by omega)]
  have hidx : ((t.AddPoint p).head + (t.AddPoint p).capacity - (t.size + 1) + i)
      % (t.AddPoint p).capacity
      = (t.head + t.capacity - t.size + i) % t.capacity := by
    show ((t.head + 1) % t.capacity + t.capacity - (t.size + 1) + i) % t.capacity = _
    have e1 : (t.head + 1) % t.capacity + t.capacity - (t.size + 1) + i
        = (t.head + 1) % t.capacity + (t.capacity - (t.size + 1) + i) := by omega
    rw [e1, Nat.mod_add_mod]
    congr 1
    omega
  show (t.points.set t.head p)[_]? = _
  rw [hidx]
  by_cases hcase : i = t.size
  · subst hcase
    have e2 : (t.head + t.capacity - t.size + t.size) % t.capacity = t.head := by
      have : t.head + t.capacity - t.size + t.size = t.head + t.capacity := by omega
      rw [this, Nat.add_mod_right, Nat.mod_eq_of_lt hh]
    rw [if_pos rfl, e2]
    exact List.getElem?_set_eq_of_lt p (by omega)
  · have hilt : i < t.size := by omega
    have e3 : t.head + t.capacity - t.size + i = t.head + (t.capacity - t.size + i) := by
      omega
    have hne : (t.head + t.capacity - t.size + i) % t.capacity ≠ t.head := by
      rw [e3]
      exact index_ne_head hh (by omega) (by omega)
    rw [if_neg hcase, List.getElem?_set_ne (Ne.symm hne), getPoint_def,
      if_pos hilt]

theorem getPoint_addPoint_of_full {t : CircularTrail α} (hwf : t.WF) (p : α)
    (hsz : t.size = t.capacity) (i : ℕ) (hi : i < t.capacity) :
    (t.AddPoint p).GetPoint i =
      if i = t.capacity - 1 then some p else t.GetPoint (i + 1) := by
  obtain ⟨hl, hc, hs, hh⟩ := hwf
  have hsz' : (t.AddPoint p).size = t.capacity := by
    simp [AddPoint, hsz]
  rw [getPoint_def, hsz', if_pos hi]
  have hidx : ((t.AddPoint p).head + (t.AddPoint p).capacity - t.capacity + i)
      % (t.AddPoint p).capacity
      = (t.head + (i + 1)) % t.capacity := by
    show ((t.head + 1) % t.capacity + t.capacity - t.capacity + i) % t.capacity = _
    have e1 : (t.head + 1) % t.capacity + t.capacity - t.capacity + i
        = (t.head + 1) % t.capacity + i := by omega
    rw [e1, Nat.mod_add_mod]
    congr 1
    omega
  show (t.points.set t.head p)[_]? = _
  rw [hidx]
  by_cases hcase : i = t.capacity - 1
  · have e2 : (t.head + (i + 1)) % t.capacity = t.head := by
      have : t.head + (i + 1) = t.head + t.capacity := by omega
      rw [this, Nat.add_mod_right, Nat.mod_eq_of_lt hh]
    rw [if_pos hcase, e2]
    exact List.getElem?_set_eq_of_lt p (by omega)
  · have hne : (t.head + (i + 1)) % t.capacity ≠ t.head :=
      index_ne_head hh (by omega) (by omega)
    rw [if_neg hcase, List.getElem?_set_ne (Ne.symm hne), getPoint_def,
      if_pos (by omega), hsz]
    have e4 : t.head + t.capacity - t.capacity + (i + 1) = t.head + (i + 1) := by
      omega
    rw [e4]

theorem addAll_append_singleton (t : CircularTrail α) (ps : List α) (p : α) :
    t.AddAll (ps ++ [p]) = (t.AddAll ps).AddPoint p := by
  simp [AddAll, List.foldl_append]

theorem addAll_model (a₀ : α) (cap : ℤ) (ps : List α) :
    ((make a₀ cap).AddAll ps).capacity = (make a₀ cap).capacity ∧
    ((make a₀ cap).AddAll ps).WF ∧
    ((make a₀ cap).AddAll ps).size
      = min ps.length (make a₀ cap).capacity ∧
    ∀ i < min ps.length (make a₀ cap).capacity,
      ((make a₀ cap).AddAll ps).GetPoint i
        = ps[ps.length - min ps.length (make a₀ cap).capacity + i]? := by
  induction ps using List.reverseRecOn with
  | nil =>
    refine ⟨rfl, make_wf a₀ cap, ?_, ?_⟩
    · simp [AddAll, make]
    · intro i hi
      simp at hi
  | append_singleton ps p ih =>
    obtain ⟨ihc, ihwf, ihsz, ihget⟩ := ih
    have hc1 : 1 ≤ (make a₀ cap).capacity := (make_wf a₀ cap).2.1
    rw [addAll_append_singleton]
    set c := (make a₀ cap).capacity with hcdef
    set u := (make a₀ cap).AddAll ps with hudef
    have hlen : (ps ++ [p]).length = ps.length + 1 := by simp
    refine ⟨by rw [capacity_addPoint]; exact ihc, wf_addPoint ihwf p, ?_, ?_⟩
    · by_cases hK : ps.length < c
      · have hszlt : u.size < u.capacity := by rw [ihc, ihsz]; omega
        have : (u.AddPoint p).size = u.size + 1 := by
          simp [AddPoint, hszlt]
        rw [this, ihsz, hlen]
        omega
      · have hszfull : u.size = u.capacity := by rw [ihc, ihsz]; omega
        have : (u.AddPoint p).size = u.size := by
          simp [AddPoint, hszfull]
        rw [this, ihsz, hlen]
        omega
    · intro i hi
      rw [hlen] at hi
      by_cases hK : ps.length < c
      · have hszlt : u.size < u.capacity := by rw [ihc, ihsz]; omega
        have husz : u.size = ps.length := by rw [ihsz]; omega
        have hmin : min (ps.length + 1) c = ps.length + 1 := by omega
        rw [hmin] at hi
        have step := getPoint_addPoint_of_lt ihwf p hszlt i (by omega)
        rw [step, husz]
        by_cases hcase : i = ps.length
        · subst hcase
          rw [if_pos rfl, hlen, hmin]
          have : ps.length + 1 - (ps.length + 1) + ps.length = ps.length := by omega
          rw [this]
          exact (List.getElem?_concat_length ps p).symm
        · have hilt : i < ps.length := by omega
          rw [if_neg hcase, ihget i (by omega), hlen, hmin]
          have e1 : ps.length - min ps.length c + i = i := by omega
          have e2 : ps.length + 1 - (ps.length + 1) + i = i := by omega
          rw [e1, e2]
          exact (List.getElem?_append_left hilt).symm
      · have hszfull : u.size = u.capacity := by rw [ihc, ihsz]; omega
        have hmin : min (ps.length + 1) c = c := by omega
        have hminps : min ps.length c = c := by omega
        rw [hmin] at hi
        have step := getPoint_addPoint_of_full ihwf p (by rw [hszfull, ihc])
          i (by rw [ihc]; exact hi)
        rw [step]
        by_cases hcase : i = c - 1
        · rw [if_pos (by rw [ihc]; exact hcase), hlen, hmin]
          have : ps.length + 1 - c + i = ps.length := by omega
          rw [this]
          exact (List.getElem?_concat_length ps p).symm
        · rw [if_neg (by rw [ihc]; exact hcase), ihget (i + 1) (by omega),
            hlen, hmin, hminps]
          have e1 : ps.length - c + (i + 1) = ps.length + 1 - c + i := by omega
          rw [e1]
          have hlt : ps.length + 1 - c + i < ps.length := by omega
          exact (List.getElem?_append_left hlt).symm

end CircularTrail

/-- C9: for every trail (capacity c is always ≥ 1 by construction), after
pushing any sequence of K > c points the trail holds exactly the last c
pushed points, and GetPoint i for i ∈ [0, c) returns them in
oldest→newest order. -/
theorem trail_ring_semantics {α : Type} (a₀ : α) (cap : ℤ) (ps : List α)
    (hK : (CircularTrail.make a₀ cap).capacity < ps.length) :
    ((CircularTrail.make a₀ cap).AddAll ps).size
        = (CircularTrail.make a₀ cap).capacity ∧
    ∀ i < (CircularTrail.make a₀ cap).capacity,
      ((CircularTrail.make a₀ cap).AddAll ps).GetPoint i
        = ps[ps.length - (CircularTrail.make a₀ cap).capacity + i]? := by
  obtain ⟨-, -, hsz, hget⟩ := CircularTrail.addAll_model a₀ cap ps
  have hmin : min ps.length (CircularTrail.make a₀ cap).capacity
      = (CircularTrail.make a₀ cap).capacity :=
    min_eq_right (le_of_lt hK)
  rw [hmin] at hsz hget
  exact ⟨hsz, hget⟩

/-- C9 witness: capacity 4, pushes 1..10, reads back 7, 8, 9, 10. -/
theorem trail_ring_semantics_witness :
    (CircularTrail.make (0 : ℕ) 4).capacity
        < ([1, 2, 3, 4, 5, 6, 7, 8, 9, 10] : List ℕ).length ∧
    ((CircularTrail.make (0 : ℕ) 4).AddAll
        [1, 2, 3, 4, 5, 6, 7, 8, 9, 10]).GetPoint 0 = some 7 ∧
    ((CircularTrail.make (0 : ℕ) 4).AddAll
        [1, 2, 3, 4, 5, 6, 7, 8, 9, 10]).GetPoint 1 = some 8 ∧
    ((CircularTrail.make (0 : ℕ) 4).AddAll
        [1, 2, 3, 4, 5, 6, 7, 8, 9, 10]).GetPoint 2 = some 9 ∧
    ((CircularTrail.make (0 : ℕ) 4).AddAll
        [1, 2, 3, 4, 5, 6, 7, 8, 9, 10]).GetPoint 3 = some 10 := by
  have h := trail_ring_semantics (0 : ℕ) 4 [1, 2, 3, 4, 5, 6, 7, 8, 9, 10]
    (by decide)
  exact ⟨by decide, (h.2 0 (by decide)).trans (by decide),
    (h.2 1 (by decide)).trans (by decide),
    (h.2 2 (by decide)).trans (by decide),
    (h.2 3 (by decide)).trans (by decide)⟩

/-- C8 amended: after SetMass or SetDensity the stored mass is ≥ 0.1, the
stored density is ≥ 10⁻³, and the radius equals
clamp(√(m / (3.14159·ρ)), 2, 100) computed from the stored values — with
the source's literal 3.14159 in place of the claim's π. -/
theorem derived_radius (b : Body ℝ) (m ρ : ℝ) (hm : 0.1 ≤ b.mass)
    (hρ : 0.001 ≤ b.density) :
    (0.1 ≤ (b.SetMass m).mass ∧ 0.001 ≤ (b.SetMass m).density ∧
      (b.SetMass m).radius = clampf
        (Real.sqrt ((b.SetMass m).mass / (3.14159 * (b.SetMass m).density)))
        2 100) ∧
    (0.1 ≤ (b.SetDensity ρ).mass ∧ 0.001 ≤ (b.SetDensity ρ).density ∧
      (b.SetDensity ρ).radius = clampf
        (Real.sqrt
          ((b.SetDensity ρ).mass / (3.14159 * (b.SetDensity ρ).density)))
        2 100) := by
  constructor
  · exact ⟨le_max_left _ _, hρ, rfl⟩
  · exact ⟨hm, le_max_left _ _, rfl⟩

/-- C8 witness: a body with mass 1 and density 1 satisfies the setter
postconditions at concrete inputs. -/
theorem derived_radius_witness :
    ((0.1 : ℝ) ≤ (⟨0, 0, 0, 0, 1, 1, 1, false, false, false⟩ : Body ℝ).mass) ∧
    ((0.001 : ℝ) ≤ (⟨0, 0, 0, 0, 1, 1, 1, false, false, false⟩ : Body ℝ).density) ∧
    0.1 ≤ ((⟨0, 0, 0, 0, 1, 1, 1, false, false, false⟩ : Body ℝ).SetMass 5).mass ∧
    ((⟨0, 0, 0, 0, 1, 1, 1, false, false, false⟩ : Body ℝ).SetMass 5).radius
      = clampf (Real.sqrt
          (((⟨0, 0, 0, 0, 1, 1, 1, false, false, false⟩ : Body ℝ).SetMass 5).mass /
            (3.14159 *
              ((⟨0, 0, 0, 0, 1, 1, 1, false, false, false⟩ : Body ℝ).SetMass 5).density)))
          2 100 := by
  have h1 : (0.1 : ℝ) ≤ (⟨0, 0, 0, 0, 1, 1, 1, false, false, false⟩ : Body ℝ).mass := by
    norm_num
  have h2 : (0.001 : ℝ) ≤ (⟨0, 0, 0, 0, 1, 1, 1, false, false, false⟩ : Body ℝ).density := by
    norm_num
  have h := derived_radius (⟨0, 0, 0, 0, 1, 1, 1, false, false, false⟩ : Body ℝ)
    5 7 h1 h2
  exact ⟨h1, h2, h.1.1, h.1.2.2⟩

/-- C8 counterexample: setting the mass to 16·3.14159 on a body of
density 1 stores radius 4, but the claim's formula with the real π gives
a value strictly below 4. -/
theorem derived_radius_counterexample :
    ((⟨0, 0, 0, 0, 1, 1, 1, false, false, false⟩ : Body ℝ).SetMass
        (16 * 3.14159)).radius = 4 ∧
    clampf (Real.sqrt
        (((⟨0, 0, 0, 0, 1, 1, 1, false, false, false⟩ : Body ℝ).SetMass
            (16 * 3.14159)).mass /
          (Real.pi *
            ((⟨0, 0, 0, 0, 1, 1, 1, false, false, false⟩ : Body ℝ).SetMass
              (16 * 3.14159)).density)))
        2 100 ≠ 4 := by
  have hmax : max (0.1 : ℝ) (16 * 3.14159) = 16 * 3.14159 := by norm_num
  have hmass : ((⟨0, 0, 0, 0, 1, 1, 1, false, false, false⟩ : Body ℝ).SetMass
      (16 * 3.14159)).mass = 16 * 3.14159 := by
    simp only [Body.SetMass, Body.UpdateRadius]
    exact hmax
  have hdens : ((⟨0, 0, 0, 0, 1, 1, 1, false, false, false⟩ : Body ℝ).SetMass
      (16 * 3.14159)).density = 1 := rfl
  constructor
  · show clampf (Real.sqrt (max (0.1 : ℝ) (16 * 3.14159) / (3.14159 * 1))) 2 100 = 4
    rw [hmax]
    have harg : (16 * 3.14159 : ℝ) / (3.14159 * 1) = 16 := by norm_num
    rw [harg]
    have h16 : (16 : ℝ) = 4 ^ 2 := by norm_num
    rw [h16, Real.sqrt_sq (by norm_num)]
    norm_num [clampf]
  · rw [hmass, hdens]
    have hpi_lt : (3.14159 : ℝ) < Real.pi := by
      have := Real.pi_gt_d6
      linarith
    have hpi_ub : Real.pi < 3.15 := Real.pi_lt_d2
    have hpi_pos : (0 : ℝ) < Real.pi := Real.pi_pos
    set a : ℝ := 16 * 3.14159 / (Real.pi * 1) with ha
    have ha_lt : a < 16 := by
      rw [ha]
      rw [div_lt_iff₀ (by linarith)]
      nlinarith
    have ha_gt : 4 < a := by
      rw [ha, lt_div_iff₀ (by linarith)]
      nlinarith
    have hs_lt : Real.sqrt a < 4 := by
      have := Real.sqrt_lt_sqrt (by linarith : (0 : ℝ) ≤ a) ha_lt
      have h16 : Real.sqrt 16 = 4 := by
        rw [show (16 : ℝ) = 4 ^ 2 by norm_num, Real.sqrt_sq (by norm_num)]
      linarith [h16 ▸ this]
    have hs_gt : 2 < Real.sqrt a := by
      have := Real.sqrt_lt_sqrt (by norm_num : (0 : ℝ) ≤ 4) ha_gt
      have h4 : Real.sqrt 4 = 2 := by
        rw [show (4 : ℝ) = 2 ^ 2 by norm_num, Real.sqrt_sq (by norm_num)]
      linarith [h4 ▸ this]
    have hcl : clampf (Real.sqrt a) 2 100 = Real.sqrt a := by
      unfold clampf
      rw [if_neg (by linarith), if_neg (by linarith)]
    rw [hcl]
    linarith

/-- C10: a detected colliding pair whose two positions coincide exactly
is left completely unchanged by the resolver; the zero separation fails
the distance > 0 guard, so no division by zero happens. -/
theorem resolve_collision_coincident_noop (e : ℝ) (a b : Body ℝ)
    (h : b.position = a.position) : ResolveCollision e a b = (a, b) := by
  have hlen : len (b.position - a.position) = 0 := by
    rw [h]
    have hz : a.position - a.position = (⟨0, 0⟩ : Vec2 ℝ) := by
      ext <;> simp [Vec2.sub_def]
    rw [hz, len_eq_sqrt]
    norm_num
  unfold ResolveCollision
  rw [if_neg]
  rintro ⟨-, h2⟩
  rw [hlen] at h2
  exact lt_irrefl 0 h2

/-- C10 witness: two bodies both at (3, 4) are returned unchanged. -/
theorem resolve_collision_coincident_noop_witness :
    ((⟨⟨3, 4⟩, ⟨1, 0⟩, 0, 0, 1, 1, 2, false, false, false⟩ : Body ℝ).position
      = (⟨⟨3, 4⟩, ⟨0, 2⟩, 0, 0, 1, 1, 2, false, false, false⟩ : Body ℝ).position) ∧
    ResolveCollision 0.8
        (⟨⟨3, 4⟩, ⟨0, 2⟩, 0, 0, 1, 1, 2, false, false, false⟩ : Body ℝ)
        (⟨⟨3, 4⟩, ⟨1, 0⟩, 0, 0, 1, 1, 2, false, false, false⟩ : Body ℝ)
      = (⟨⟨3, 4⟩, ⟨0, 2⟩, 0, 0, 1, 1, 2, false, false, false⟩,
         ⟨⟨3, 4⟩, ⟨1, 0⟩, 0, 0, 1, 1, 2, false, false, false⟩) :=
  ⟨rfl, resolve_collision_coincident_noop 0.8 _ _ rfl⟩

/-- C6 amended: an overlapping pair at positive separation displaces
each movable body by half the overlap depth δ/2 along the separation
normal; a fixed or dragged body does not move, and the other body still
moves only δ/2 — the full correction is not transferred to it. -/
theorem collision_positional_correction (e : ℝ) (a b : Body ℝ)
    (hover : len (b.position - a.position) < a.radius + b.radius)
    (hpos : 0 < len (b.position - a.position)) :
    ((a.fixed = false ∧ a.beingDragged = false →
      (ResolveCollision e a b).1.position = a.position -
        (((a.radius + b.radius - len (b.position - a.position)) / 2) *
          (1 / len (b.position - a.position))) • (b.position - a.position)) ∧
     (¬(a.fixed = false ∧ a.beingDragged = false) →
      (ResolveCollision e a b).1.position = a.position) ∧
     (b.fixed = false ∧ b.beingDragged = false →
      (ResolveCollision e a b).2.position = b.position +
        (((a.radius + b.radius - len (b.position - a.position)) / 2) *
          (1 / len (b.position - a.position))) • (b.position - a.position)) ∧
     (¬(b.fixed = false ∧ b.beingDragged = false) →
      (ResolveCollision e a b).2.position = b.position)) := by
  have hsep : ((a.radius + b.radius - len (b.position - a.position)) /
        len (b.position - a.position) * 0.5)
      = ((a.radius + b.radius - len (b.position - a.position)) / 2) *
        (1 / len (b.position - a.position)) := by
    field_simp
    ring
  unfold ResolveCollision
  rw [if_pos ⟨hover, hpos⟩]
  by_cases hma : a.fixed = false ∧ a.beingDragged = false <;>
    by_cases hmb : b.fixed = false ∧ b.beingDragged = false <;>
      by_cases hvn : Vec2.dot (b.velocity - a.velocity)
        ((1 / len (b.position - a.position)) • (b.position - a.position)) > 0 <;>
        simp only [hma, hmb, hvn, if_pos, if_neg, if_true, if_false,
          not_false_iff, not_true] <;>
        simp_all [hsep]

/-- C6 witness: two movable overlapping bodies at (0,0) and (1,0) with
radii 2 each move by δ/2 = 3/2. -/
theorem collision_positional_correction_witness :
    len ((⟨⟨1, 0⟩, 0, 0, 0, 1, 1, 2, false, false, false⟩ : Body ℝ).position -
        (⟨⟨0, 0⟩, 0, 0, 0, 1, 1, 2, false, false, false⟩ : Body ℝ).position)
      < (⟨⟨0, 0⟩, 0, 0, 0, 1, 1, 2, false, false, false⟩ : Body ℝ).radius +
        (⟨⟨1, 0⟩, 0, 0, 0, 1, 1, 2, false, false, false⟩ : Body ℝ).radius ∧
    0 < len ((⟨⟨1, 0⟩, 0, 0, 0, 1, 1, 2, false, false, false⟩ : Body ℝ).position -
        (⟨⟨0, 0⟩, 0, 0, 0, 1, 1, 2, false, false, false⟩ : Body ℝ).position) ∧
    (ResolveCollision 0.8
        (⟨⟨0, 0⟩, 0, 0, 0, 1, 1, 2, false, false, false⟩ : Body ℝ)
        (⟨⟨1, 0⟩, 0, 0, 0, 1, 1, 2, false, false, false⟩ : Body ℝ)).1.position
      = ⟨-(3 / 2), 0⟩ ∧
    (ResolveCollision 0.8
        (⟨⟨0, 0⟩, 0, 0, 0, 1, 1, 2, false, false, false⟩ : Body ℝ)
        (⟨⟨1, 0⟩, 0, 0, 0, 1, 1, 2, false, false, false⟩ : Body ℝ)).2.position
      = ⟨5 / 2, 0⟩ := by
  have hl : len ((⟨1, 0⟩ : Vec2 ℝ) - ⟨0, 0⟩) = 1 := by
    rw [Vec2.sub_def, len_eq_sqrt]
    norm_num
  have h1 : len ((⟨⟨1, 0⟩, 0, 0, 0, 1, 1, 2, false, false, false⟩ : Body ℝ).position -
      (⟨⟨0, 0⟩, 0, 0, 0, 1, 1, 2, false, false, false⟩ : Body ℝ).position)
      < (⟨⟨0, 0⟩, 0, 0, 0, 1, 1, 2, false, false, false⟩ : Body ℝ).radius +
        (⟨⟨1, 0⟩, 0, 0, 0, 1, 1, 2, false, false, false⟩ : Body ℝ).radius := by
    show len ((⟨1, 0⟩ : Vec2 ℝ) - ⟨0, 0⟩) < 2 + 2
    rw [hl]
    norm_num
  have h2 : 0 < len ((⟨⟨1, 0⟩, 0, 0, 0, 1, 1, 2, false, false, false⟩ : Body ℝ).position -
      (⟨⟨0, 0⟩, 0, 0, 0, 1, 1, 2, false, false, false⟩ : Body ℝ).position) := by
    show (0 : ℝ) < len ((⟨1, 0⟩ : Vec2 ℝ) - ⟨0, 0⟩)
    rw [hl]
    norm_num
  obtain ⟨ha, -, hb, -⟩ := collision_positional_correction 0.8
    (⟨⟨0, 0⟩, 0, 0, 0, 1, 1, 2, false, false, false⟩ : Body ℝ)
    (⟨⟨1, 0⟩, 0, 0, 0, 1, 1, 2, false, false, false⟩ : Body ℝ) h1 h2
  refine ⟨h1, h2, ?_, ?_⟩
  · rw [ha ⟨rfl, rfl⟩]
    show (⟨0, 0⟩ : Vec2 ℝ) - ((2 + 2 - len ((⟨1, 0⟩ : Vec2 ℝ) - ⟨0, 0⟩)) / 2 *
      (1 / len ((⟨1, 0⟩ : Vec2 ℝ) - ⟨0, 0⟩))) • ((⟨1, 0⟩ : Vec2 ℝ) - ⟨0, 0⟩) = _
    rw [hl]
    ext <;> norm_num [Vec2.sub_def, Vec2.smul_def]
  · rw [hb ⟨rfl, rfl⟩]
    show (⟨1, 0⟩ : Vec2 ℝ) + ((2 + 2 - len ((⟨1, 0⟩ : Vec2 ℝ) - ⟨0, 0⟩)) / 2 *
      (1 / len ((⟨1, 0⟩ : Vec2 ℝ) - ⟨0, 0⟩))) • ((⟨1, 0⟩ : Vec2 ℝ) - ⟨0, 0⟩) = _
    rw [hl]
    ext <;> norm_num [Vec2.sub_def, Vec2.add_def, Vec2.smul_def]

/-- C6 counterexample: with body a fixed at (0,0) and movable b at (1,0),
radii 2 (overlap depth δ = 3), the resolver moves b to (5/2, 0) — a δ/2
displacement — and not to (4, 0), the full-correction position the claim
predicts. -/
theorem collision_positional_correction_counterexample :
    (ResolveCollision 0.8
        (⟨⟨0, 0⟩, 0, 0, 0, 1, 1, 2, false, false, true⟩ : Body ℝ)
        (⟨⟨1, 0⟩, 0, 0, 0, 1, 1, 2, false, false, false⟩ : Body ℝ)).1.position
      = ⟨0, 0⟩ ∧
    (ResolveCollision 0.8
        (⟨⟨0, 0⟩, 0, 0, 0, 1, 1, 2, false, false, true⟩ : Body ℝ)
        (⟨⟨1, 0⟩, 0, 0, 0, 1, 1, 2, false, false, false⟩ : Body ℝ)).2.position
      = ⟨5 / 2, 0⟩ ∧
    ((⟨5 / 2, 0⟩ : Vec2 ℝ) ≠ ⟨4, 0⟩) := by
  have hl1 : len (⟨1, 0⟩ : Vec2 ℝ) = 1 := by
    rw [len_eq_sqrt]
    norm_num
  refine ⟨?_, ?_, by norm_num [Vec2.mk.injEq]⟩ <;>
    norm_num [ResolveCollision, Vec2.sub_def, Vec2.add_def, Vec2.smul_def,
      Vec2.dot, Vec2.zero_def, hl1, Vec2.mk.injEq]

theorem clampVelocity_len_le (v : Vec2 ℝ) : len (clampVelocity v) ≤ 500 := by
  unfold clampVelocity
  by_cases h : len v > 500
  · rw [if_pos h, len_smul, abs_of_nonneg (by positivity)]
    rw [div_mul_cancel₀]
    linarith
  · rw [if_neg h]
    linarith [not_lt.mp h]

/-- C2: one kick-drift-kick step on a body that is neither fixed nor
dragged first damps the velocity, applies a half-kick a·h/2 with
a = F/m, drifts the position by the half-kicked velocity times h,
applies the second half-kick with the same a, and finally caps the
speed at 500: the new velocity is clamp(v·damping + a·h) with norm at
most 500 and the new position is p + (v·damping + a·h/2)·h. -/
theorem leapfrog_step (damping dt : ℝ) (b : Body ℝ) (hf : b.fixed = false)
    (hd : b.beingDragged = false) :
    (IntegrateLeapfrogBody damping dt b).velocity
      = clampVelocity
          (damping • b.velocity + dt • ((1 / b.mass) • b.force)) ∧
    len (IntegrateLeapfrogBody damping dt b).velocity ≤ 500 ∧
    (IntegrateLeapfrogBody damping dt b).position
      = b.position +
          dt • (damping • b.velocity + (dt / 2) • ((1 / b.mass) • b.force)) := by
  have hb : (IntegrateLeapfrogBody damping dt b) =
      { b with
        position := b.position + dt • (damping • b.velocity +
          (dt * 0.5) • ((1 / b.mass) • b.force)),
        velocity := clampVelocity ((damping • b.velocity +
            (dt * 0.5) • ((1 / b.mass) • b.force)) +
          (dt * 0.5) • ((1 / b.mass) • b.force)) } := by
    unfold IntegrateLeapfrogBody
    rw [hf, hd]
    rfl
  rw [hb]
  refine ⟨?_, ?_, ?_⟩
  · show clampVelocity _ = clampVelocity _
    congr 1
    ext <;> simp only [Vec2.add_def, Vec2.smul_def] <;> ring
  · exact clampVelocity_len_le _
  · show b.position + _ = b.position + _
    congr 1
    ext <;> simp only [Vec2.add_def, Vec2.smul_def] <;> ring

/-- C2 witness: a movable body with velocity (3,4) and dt = 0 keeps its
position and velocity (speed 5 ≤ 500). -/
theorem leapfrog_step_witness :
    ((⟨⟨1, 2⟩, ⟨3, 4⟩, 0, 0, 1, 1, 2, false, false, false⟩ : Body ℝ).fixed
        = false) ∧
    ((⟨⟨1, 2⟩, ⟨3, 4⟩, 0, 0, 1, 1, 2, false, false, false⟩ : Body ℝ).beingDragged
        = false) ∧
    (IntegrateLeapfrogBody 1 0
        (⟨⟨1, 2⟩, ⟨3, 4⟩, 0, 0, 1, 1, 2, false, false, false⟩ : Body ℝ)).velocity
      = ⟨3, 4⟩ ∧
    len (IntegrateLeapfrogBody 1 0
        (⟨⟨1, 2⟩, ⟨3, 4⟩, 0, 0, 1, 1, 2, false, false, false⟩ : Body ℝ)).velocity
      ≤ 500 ∧
    (IntegrateLeapfrogBody 1 0
        (⟨⟨1, 2⟩, ⟨3, 4⟩, 0, 0, 1, 1, 2, false, false, false⟩ : Body ℝ)).position
      = ⟨1, 2⟩ := by
  obtain ⟨h1, h2, h3⟩ := leapfrog_step 1 0
    (⟨⟨1, 2⟩, ⟨3, 4⟩, 0, 0, 1, 1, 2, false, false, false⟩ : Body ℝ) rfl rfl
  have hv : (1 : ℝ) • (⟨3, 4⟩ : Vec2 ℝ) +
      (0 : ℝ) • ((1 / (1 : ℝ)) • (0 : Vec2 ℝ)) = ⟨3, 4⟩ := by
    ext <;> norm_num [Vec2.add_def, Vec2.smul_def, Vec2.zero_def]
  have hlen34 : len (⟨3, 4⟩ : Vec2 ℝ) = 5 := by
    rw [len_eq_sqrt]
    rw [show ((3 : ℝ) ^ 2 + (4 : ℝ) ^ 2) = 5 ^ 2 by norm_num,
      Real.sqrt_sq (by norm_num)]
  have hcl : clampVelocity (⟨3, 4⟩ : Vec2 ℝ) = ⟨3, 4⟩ := by
    unfold clampVelocity
    rw [if_neg (by rw [hlen34]; norm_num)]
  refine ⟨rfl, rfl, ?_, h2, ?_⟩
  · rw [h1]
    show clampVelocity ((1 : ℝ) • (⟨3, 4⟩ : Vec2 ℝ) +
      (0 : ℝ) • ((1 / (1 : ℝ)) • (0 : Vec2 ℝ))) = _
    rw [hv, hcl]
  · rw [h3]
    ext <;> norm_num [Vec2.add_def, Vec2.smul_def, Vec2.zero_def]

/-!
C5 groundwork: concrete unclamped contributions of the blocked, Morton
and tree kernels, and the clamp bound of the naive direct kernel.
-/

theorem blocked_contribution_example :
    BlockedPairContribution ⟨0, 0⟩ ⟨1 / 100, 0⟩ 10 1 0 = ⟨100000, 0⟩ := by
  simp only [BlockedPairContribution, pow15]
  have hv : ((⟨1 / 100, 0⟩ : Vec2 ℝ) - ⟨0, 0⟩) = ⟨1 / 100, 0⟩ := by
    ext <;> norm_num [Vec2.sub_def]
  rw [hv]
  have hd : Vec2.dot (⟨1 / 100, 0⟩ : Vec2 ℝ) ⟨1 / 100, 0⟩ = 1 / 10000 := by
    norm_num [Vec2.dot]
  rw [hd]
  have hs : Real.sqrt ((1 : ℝ) / 10000 + 0) = 1 / 100 := by
    rw [show ((1 : ℝ) / 10000 + 0) = (1 / 100) ^ 2 by norm_num,
      Real.sqrt_sq (by norm_num)]
  rw [hs, if_pos (by norm_num)]
  ext <;> norm_num [Vec2.smul_def]

theorem morton_contribution_example :
    MortonPairContribution ⟨0, 0⟩ ⟨1 / 100, 0⟩ 10 1 0 = ⟨100000, 0⟩ := by
  simp only [MortonPairContribution, pow15]
  have hv : ((⟨1 / 100, 0⟩ : Vec2 ℝ) - ⟨0, 0⟩) = ⟨1 / 100, 0⟩ := by
    ext <;> norm_num [Vec2.sub_def]
  rw [hv]
  have hd : Vec2.dot (⟨1 / 100, 0⟩ : Vec2 ℝ) ⟨1 / 100, 0⟩ = 1 / 10000 := by
    norm_num [Vec2.dot]
  rw [hd]
  have hs : Real.sqrt ((1 : ℝ) / 10000 + 0) = 1 / 100 := by
    rw [show ((1 : ℝ) / 10000 + 0) = (1 / 100) ^ 2 by norm_num,
      Real.sqrt_sq (by norm_num)]
  rw [hs, if_pos (by norm_num)]
  ext <;> norm_num [Vec2.smul_def]

theorem tree_force_example :
    CalculateForce 0 ⟨0, 0⟩ (1 / 2) 1
      (some (QuadTreeNode.mk ⟨0, 0⟩ 0.001 10 ⟨1 / 100, 0⟩ [] (some 1) true))
      = ⟨50000, 0⟩ := by
  simp only [CalculateForce, QuadTreeNode.totalMass]
  rw [if_neg (by norm_num)]
  simp only [CalculateForceNode]
  have hv : ((⟨1 / 100, 0⟩ : Vec2 ℝ) - ⟨0, 0⟩) = ⟨1 / 100, 0⟩ := by
    ext <;> norm_num [Vec2.sub_def]
  rw [hv]
  have hd : Vec2.dot (⟨1 / 100, 0⟩ : Vec2 ℝ) ⟨1 / 100, 0⟩ = 1 / 10000 := by
    norm_num [Vec2.dot]
  rw [hd]
  have hs : Real.sqrt ((1 : ℝ) / 10000) = 1 / 100 := by
    rw [show ((1 : ℝ) / 10000) = (1 / 100) ^ 2 by norm_num,
      Real.sqrt_sq (by norm_num)]
  rw [hs]
  rw [if_neg (by norm_num), if_neg (by simp), if_pos (by norm_num),
    if_neg (by norm_num)]
  ext <;> norm_num [Vec2.smul_def]

theorem direct_contribution_le (positionA positionB : Vec2 ℝ)
    (massB G softening : ℝ) :
    len (DirectPairContribution positionA positionB massB G softening)
      ≤ 10000 := by
  unfold DirectPairContribution
  by_cases h :
      len (CalculateGravitationalForce positionA positionB massB G softening)
        > 10000
  · rw [if_pos h, len_smul, abs_of_nonneg (by positivity)]
    rw [div_mul_cancel₀]
    · linarith [h]
  · rw [if_neg h]
    linarith [not_lt.mp h]

/-- C5 counterexample: the blocked direct variant's pairwise
contribution for G = 1, mB = 10, separation 1/100, zero softening has
magnitude 10⁵ — far above the claimed 10⁴ cap, which that variant never
applies. -/
theorem force_clamp_counterexample :
    len (BlockedPairContribution ⟨0, 0⟩ ⟨1 / 100, 0⟩ 10 1 0) = 100000 ∧
    (10000 : ℝ) < 100000 := by
  constructor
  · rw [blocked_contribution_example, len_single_x]
    norm_num
  · norm_num

/-- C5 amended: the per-contribution cap at 10⁴ exists only in the naive
direct variant; the blocked and Morton-ordered direct variants and the
Barnes–Hut tree variant all apply no per-contribution cap (each can
produce a contribution of magnitude above 10⁴). -/
theorem force_clamp_variants :
    (∀ (positionA positionB : Vec2 ℝ) (massB G softening : ℝ),
      len (DirectPairContribution positionA positionB massB G softening)
        ≤ 10000) ∧
    10000 < len (BlockedPairContribution ⟨0, 0⟩ ⟨1 / 100, 0⟩ 10 1 0) ∧
    10000 < len (MortonPairContribution ⟨0, 0⟩ ⟨1 / 100, 0⟩ 10 1 0) ∧
    10000 < len (CalculateForce 0 ⟨0, 0⟩ (1 / 2) 1
      (some (QuadTreeNode.mk ⟨0, 0⟩ 0.001 10 ⟨1 / 100, 0⟩ [] (some 1) true))) := by
  refine ⟨direct_contribution_le, ?_, ?_, ?_⟩
  · rw [blocked_contribution_example, len_single_x]
    norm_num
  · rw [morton_contribution_example, len_single_x]
    norm_num
  · rw [tree_force_example, len_single_x]
    norm_num

namespace QuadTreeNode

variable {K : Type}

/-!
C3 groundwork: accessor equations, membership in allNodes, and the two
accumulation loops of UpdateMassAndCenter.
-/

@[simp] theorem center_mk (c : Vec2 K) (s m : K) (com : Vec2 K)
    (ch : List (QuadTreeNode K)) (b : Option ℕ) (leaf : Bool) :
    (QuadTreeNode.mk c s m com ch b leaf).center = c := rfl

@[simp] theorem size_mk (c : Vec2 K) (s m : K) (com : Vec2 K)
    (ch : List (QuadTreeNode K)) (b : Option ℕ) (leaf : Bool) :
    (QuadTreeNode.mk c s m com ch b leaf).size = s := rfl

@[simp] theorem totalMass_mk (c : Vec2 K) (s m : K) (com : Vec2 K)
    (ch : List (QuadTreeNode K)) (b : Option ℕ) (leaf : Bool) :
    (QuadTreeNode.mk c s m com ch b leaf).totalMass = m := rfl

@[simp] theorem centerOfMass_mk (c : Vec2 K) (s m : K) (com : Vec2 K)
    (ch : List (QuadTreeNode K)) (b : Option ℕ) (leaf : Bool) :
    (QuadTreeNode.mk c s m com ch b leaf).centerOfMass = com := rfl

@[simp] theorem children_mk (c : Vec2 K) (s m : K) (com : Vec2 K)
    (ch : List (QuadTreeNode K)) (b : Option ℕ) (leaf : Bool) :
    (QuadTreeNode.mk c s m com ch b leaf).children = ch := rfl

@[simp] theorem body_mk (c : Vec2 K) (s m : K) (com : Vec2 K)
    (ch : List (QuadTreeNode K)) (b : Option ℕ) (leaf : Bool) :
    (QuadTreeNode.mk c s m com ch b leaf).body = b := rfl

@[simp] theorem isLeaf_mk (c : Vec2 K) (s m : K) (com : Vec2 K)
    (ch : List (QuadTreeNode K)) (b : Option ℕ) (leaf : Bool) :
    (QuadTreeNode.mk c s m com ch b leaf).isLeaf = leaf := rfl

end QuadTreeNode

theorem UpdateChildrenMass_eq_map {K : Type} [LinearOrderedField K]
    (bodies : List (Body K)) :
    ∀ l : List (QuadTreeNode K),
      UpdateChildrenMass bodies l = l.map (UpdateMassAndCenter bodies) := by
  intro l
  induction l with
  | nil => rfl
  | cons t ts ih =>
    rw [UpdateChildrenMass, List.map_cons, ih]

theorem allNodes_mk {K : Type} (c : Vec2 K) (s m : K) (com : Vec2 K)
    (ch : List (QuadTreeNode K)) (b : Option ℕ) (leaf : Bool) :
    allNodes (QuadTreeNode.mk c s m com ch b leaf)
      = QuadTreeNode.mk c s m com ch b leaf :: allNodesList ch := by
  rw [allNodes]

theorem mem_allNodesList {K : Type} {n : QuadTreeNode K} :
    ∀ {l : List (QuadTreeNode K)},
      n ∈ allNodesList l ↔ ∃ c ∈ l, n ∈ allNodes c := by
  intro l
  induction l with
  | nil =>
    simp [allNodesList]
  | cons t ts ih =>
    rw [allNodesList]
    simp only [List.mem_append, ih, List.mem_cons]
    constructor
    · rintro (h | ⟨c, hc, hn⟩)
      · exact ⟨t, Or.inl rfl, h⟩
      · exact ⟨c, Or.inr hc, hn⟩
    · rintro ⟨c, hc | hc, hn⟩
      · exact Or.inl (hc ▸ hn)
      · exact Or.inr ⟨c, hc, hn⟩

theorem sizeOf_child_lt {K : Type} (c₀ : Vec2 K) (s m : K) (com : Vec2 K)
    (ch : List (QuadTreeNode K)) (b : Option ℕ) (leaf : Bool)
    {c : QuadTreeNode K} (hc : c ∈ ch) :
    sizeOf c < sizeOf (QuadTreeNode.mk c₀ s m com ch b leaf) := by
  have h1 := List.sizeOf_lt_of_mem hc
  simp only [QuadTreeNode.mk.sizeOf_spec]
  omega

theorem foldl_mass_sum {K : Type} [LinearOrderedField K] :
    ∀ (l : List (QuadTreeNode K)) (a : K), (∀ c ∈ l, 0 ≤ c.totalMass) →
      l.foldl (fun acc c =>
        if 0 < c.totalMass then acc + c.totalMass else acc) a
        = a + (l.map QuadTreeNode.totalMass).sum := by
  intro l
  induction l with
  | nil =>
    intro a _
    simp
  | cons c ts ih =>
    intro a h
    have hts : ∀ d ∈ ts, 0 ≤ d.totalMass :=
      fun d hd => h d (List.mem_cons_of_mem _ hd)
    simp only [List.foldl_cons, List.map_cons, List.sum_cons]
    by_cases hc : 0 < c.totalMass
    · rw [if_pos hc, ih _ hts]
      ring
    · rw [if_neg hc, ih _ hts]
      have hz : c.totalMass = 0 :=
        le_antisymm (not_lt.mp hc) (h c (List.mem_cons_self _ _))
      rw [hz]
      ring

theorem foldl_weighted_sum {K : Type} [LinearOrderedField K] :
    ∀ (l : List (QuadTreeNode K)) (v : Vec2 K), (∀ c ∈ l, 0 ≤ c.totalMass) →
      l.foldl (fun acc c =>
        if 0 < c.totalMass then acc + c.totalMass • c.centerOfMass else acc) v
        = v + (l.map (fun c => c.totalMass • c.centerOfMass)).sum := by
  intro l
  induction l with
  | nil =>
    intro v _
    simp
  | cons c ts ih =>
    intro v h
    have hts : ∀ d ∈ ts, 0 ≤ d.totalMass :=
      fun d hd => h d (List.mem_cons_of_mem _ hd)
    simp only [List.foldl_cons, List.map_cons, List.sum_cons]
    by_cases hc : 0 < c.totalMass
    · rw [if_pos hc, ih _ hts, add_assoc]
    · rw [if_neg hc, ih _ hts]
      have hz : c.totalMass = 0 :=
        le_antisymm (not_lt.mp hc) (h c (List.mem_cons_self _ _))
      rw [hz, zero_smul, zero_add]

theorem leavesChildless_child {K : Type} {c₀ : Vec2 K} {s m : K}
    {com : Vec2 K} {ch : List (QuadTreeNode K)} {b : Option ℕ} {leaf : Bool}
    (h : LeavesChildless (QuadTreeNode.mk c₀ s m com ch b leaf))
    {c : QuadTreeNode K} (hc : c ∈ ch) : LeavesChildless c := by
  intro n hn
  apply h
  rw [allNodes_mk, List.mem_cons]
  exact Or.inr (mem_allNodesList.mpr ⟨c, hc, hn⟩)

theorem updateMC_invariant {K : Type} [LinearOrderedField K]
    (bodies : List (Body K)) (hm : ∀ i, 0 < (bodyAt bodies i).mass) :
    ∀ (N : ℕ) (t : QuadTreeNode K), sizeOf t ≤ N → LeavesChildless t →
      0 ≤ (UpdateMassAndCenter bodies t).totalMass ∧
      ∀ n ∈ allNodes (UpdateMassAndCenter bodies t),
        MassComInvariant bodies n := by
  intro N
  induction N with
  | zero =>
    intro t ht
    exfalso
    cases t with
    | mk c s m com ch b leaf =>
      simp only [QuadTreeNode.mk.sizeOf_spec] at ht
      omega
  | succ N ih =>
    intro t ht hwf
    cases t with
    | mk c s m com ch b leaf =>
      cases leaf with
      | true =>
        have hch : ch = [] := by
          have h := hwf (QuadTreeNode.mk c s m com ch b true)
            (by rw [allNodes_mk]; exact List.mem_cons_self _ _) rfl
          simpa using h
        subst hch
        cases b with
        | none =>
          have hupd : UpdateMassAndCenter bodies
              (QuadTreeNode.mk c s m com [] none true)
              = QuadTreeNode.mk c s 0 ⟨0, 0⟩ [] none true := by
            rw [UpdateMassAndCenter]
            rfl
          rw [hupd]
          refine ⟨le_refl 0, ?_⟩
          intro n hn
          rw [allNodes_mk] at hn
          simp only [allNodesList, List.mem_cons, List.not_mem_nil,
            or_false] at hn
          subst hn
          constructor
          · intro _
            refine ⟨?_, ?_⟩
            · intro i hi
              simp at hi
            · intro _
              exact ⟨rfl, rfl⟩
          · intro hfalse
            simp at hfalse
        | some i =>
          have hupd : UpdateMassAndCenter bodies
              (QuadTreeNode.mk c s m com [] (some i) true)
              = QuadTreeNode.mk c s (bodyAt bodies i).mass
                  (bodyAt bodies i).position [] (some i) true := by
            rw [UpdateMassAndCenter]
            rfl
          rw [hupd]
          refine ⟨le_of_lt (hm i), ?_⟩
          intro n hn
          rw [allNodes_mk] at hn
          simp only [allNodesList, List.mem_cons, List.not_mem_nil,
            or_false] at hn
          subst hn
          constructor
          · intro _
            refine ⟨?_, ?_⟩
            · intro j hj
              simp only [QuadTreeNode.body_mk, Option.some.injEq] at hj
              subst hj
              exact ⟨rfl, rfl⟩
            · intro hj
              simp at hj
          · intro hfalse
            simp at hfalse
      | false =>
        have hch2 : UpdateChildrenMass bodies ch
            = ch.map (UpdateMassAndCenter bodies) :=
          UpdateChildrenMass_eq_map bodies ch
        have hchild : ∀ c' ∈ ch,
            0 ≤ (UpdateMassAndCenter bodies c').totalMass ∧
            ∀ n ∈ allNodes (UpdateMassAndCenter bodies c'),
              MassComInvariant bodies n := by
          intro c' hc'
          apply ih
          · have := sizeOf_child_lt c s m com ch b false hc'
            omega
          · exact leavesChildless_child hwf hc'
        have hnonneg : ∀ d ∈ ch.map (UpdateMassAndCenter bodies),
            0 ≤ d.totalMass := by
          intro d hd
          rw [List.mem_map] at hd
          obtain ⟨c', hc', rfl⟩ := hd
          exact (hchild c' hc').1
        have htot : (ch.map (UpdateMassAndCenter bodies)).foldl
            (fun acc child =>
              if 0 < child.totalMass then acc + child.totalMass else acc) 0
            = ((ch.map (UpdateMassAndCenter bodies)).map
                QuadTreeNode.totalMass).sum := by
          rw [foldl_mass_sum _ _ hnonneg, zero_add]
        have hwsum : (ch.map (UpdateMassAndCenter bodies)).foldl
            (fun acc child =>
              if 0 < child.totalMass then
                acc + child.totalMass • child.centerOfMass
              else acc) (⟨0, 0⟩ : Vec2 K)
            = ((ch.map (UpdateMassAndCenter bodies)).map
                (fun c => c.totalMass • c.centerOfMass)).sum := by
          rw [foldl_weighted_sum _ _ hnonneg]
          show (0 : Vec2 K) + _ = _
          rw [zero_add]
        have hsum_nonneg : 0 ≤ ((ch.map (UpdateMassAndCenter bodies)).map
            QuadTreeNode.totalMass).sum := by
          apply List.sum_nonneg
          intro x hx
          rw [List.mem_map] at hx
          obtain ⟨d, hd, rfl⟩ := hx
          exact hnonneg d hd
        have hupd : UpdateMassAndCenter bodies
            (QuadTreeNode.mk c s m com ch b false)
            = (if (1e-9 : K) < ((ch.map (UpdateMassAndCenter bodies)).map
                  QuadTreeNode.totalMass).sum then
                QuadTreeNode.mk c s
                  ((ch.map (UpdateMassAndCenter bodies)).map
                    QuadTreeNode.totalMass).sum
                  ((1 / ((ch.map (UpdateMassAndCenter bodies)).map
                      QuadTreeNode.totalMass).sum) •
                    ((ch.map (UpdateMassAndCenter bodies)).map
                      (fun c => c.totalMass • c.centerOfMass)).sum)
                  (ch.map (UpdateMassAndCenter bodies)) b false
              else
                QuadTreeNode.mk c s
                  ((ch.map (UpdateMassAndCenter bodies)).map
                    QuadTreeNode.totalMass).sum
                  c (ch.map (UpdateMassAndCenter bodies)) b false) := by
          rw [UpdateMassAndCenter.eq_def]
          simp only [if_neg (Bool.false_ne_true), hch2, htot, hwsum]
        have hmem : ∀ n ∈ allNodesList (ch.map (UpdateMassAndCenter bodies)),
            MassComInvariant bodies n := by
          intro n hn
          obtain ⟨d, hd, hnd⟩ := mem_allNodesList.mp hn
          rw [List.mem_map] at hd
          obtain ⟨c', hc', rfl⟩ := hd
          exact (hchild c' hc').2 n hnd
        rw [hupd]
        split
        · constructor
          · simp only [QuadTreeNode.totalMass_mk]
            exact hsum_nonneg
          · intro n hn
            rw [allNodes_mk, List.mem_cons] at hn
            rcases hn with hn | hn
            · subst hn
              constructor
              · intro hfalse
                simp at hfalse
              · intro _
                refine ⟨?_, ?_, ?_⟩
                · simp
                · intro _
                  simp
                · intro hno
                  exact absurd (by assumption) hno
            · exact hmem n hn
        · constructor
          · simp only [QuadTreeNode.totalMass_mk]
            exact hsum_nonneg
          · intro n hn
            rw [allNodes_mk, List.mem_cons] at hn
            rcases hn with hn | hn
            · subst hn
              constructor
              · intro hfalse
                simp at hfalse
              · intro _
                refine ⟨?_, ?_, ?_⟩
                · simp
                · intro hyes
                  exact absurd hyes (by assumption)
                · intro _
                  simp
            · exact hmem n hn

theorem leavesChildless_mk_nochildren {K : Type} (c : Vec2 K) (s m : K)
    (com : Vec2 K) (b : Option ℕ) (leaf : Bool) :
    LeavesChildless (QuadTreeNode.mk c s m com [] b leaf) := by
  intro n hn
  rw [allNodes_mk] at hn
  simp only [allNodesList, List.mem_cons, List.not_mem_nil, or_false] at hn
  subst hn
  intro _
  rfl

theorem leavesChildless_mk_internal {K : Type} (c : Vec2 K) (s m : K)
    (com : Vec2 K) (ch : List (QuadTreeNode K)) (b : Option ℕ)
    (hch : ∀ x ∈ ch, LeavesChildless x) :
    LeavesChildless (QuadTreeNode.mk c s m com ch b false) := by
  intro n hn
  rw [allNodes_mk, List.mem_cons] at hn
  rcases hn with hn | hn
  · subst hn
    intro hfalse
    simp at hfalse
  · obtain ⟨x, hx, hnx⟩ := mem_allNodesList.mp hn
    exact hch x hx n hnx

theorem updateChild_leavesChildless {K : Type} [LinearOrderedField K]
    (u : QuadTreeNode K) (hu : u.isLeaf = false)
    (hux : ∀ x ∈ u.children, LeavesChildless x)
    (q : ℕ) (f : QuadTreeNode K → QuadTreeNode K)
    (hf : ∀ x, LeavesChildless x → LeavesChildless (f x)) :
    LeavesChildless (u.updateChild q f) ∧
      (u.updateChild q f).isLeaf = false ∧
      ∀ x ∈ (u.updateChild q f).children, LeavesChildless x := by
  cases u with
  | mk uc us um ucom uch ub uleaf =>
    simp only [QuadTreeNode.isLeaf_mk] at hu
    subst hu
    simp only [QuadTreeNode.children_mk] at hux
    unfold QuadTreeNode.updateChild
    cases hq : (QuadTreeNode.mk uc us um ucom uch ub false).children[q]? with
    | none =>
      exact ⟨leavesChildless_mk_internal _ _ _ _ _ _ hux, rfl, by
        simpa using hux⟩
    | some x =>
      have hxm : x ∈ uch := by
        simp only [QuadTreeNode.children_mk] at hq
        exact List.getElem?_mem hq
      have hset : ∀ y ∈ uch.set q (f x), LeavesChildless y := by
        intro y hy
        rcases List.mem_or_eq_of_mem_set hy with hy | rfl
        · exact hux y hy
        · exact hf x (hux x hxm)
      exact ⟨leavesChildless_mk_internal _ _ _ _ _ _ hset, rfl, by
        simpa using hset⟩

theorem insert_leavesChildless {K : Type} [LinearOrderedField K]
    (bodies : List (Body K)) :
    ∀ (fuel : ℕ) (t : QuadTreeNode K) (bi : ℕ), LeavesChildless t →
      LeavesChildless (InsertBody bodies fuel t bi) := by
  intro fuel
  induction fuel with
  | zero =>
    intro t bi h
    rw [InsertBody]
    exact h
  | succ fuel ih =>
    intro t bi h
    cases t with
    | mk c s m com ch b leaf =>
      rw [InsertBody]
      split
      · exact h
      · split
        · -- leaf node: its children list is empty by well-formedness
          rename_i hleaf
          have hch : ch = [] := by
            have hx := h (QuadTreeNode.mk c s m com ch b leaf)
              (by rw [allNodes_mk]; exact List.mem_cons_self _ _)
              (by simpa using hleaf)
            simpa using hx
          subst hch
          split
          · exact leavesChildless_mk_nochildren c s m com (some bi) leaf
          · rename_i oi hoi
            simp only []
            split
            · exact h
            · have hsub : ∀ x ∈ (Subdivide
                  (QuadTreeNode.mk c s m com ([] : List (QuadTreeNode K))
                    b leaf).clearToInternal).children,
                  LeavesChildless x := by
                intro x hx
                simp only [Subdivide, QuadTreeNode.clearToInternal,
                  QuadTreeNode.withChildren, QuadTreeNode.children_mk,
                  List.mem_map] at hx
                obtain ⟨q, -, rfl⟩ := hx
                exact leavesChildless_mk_nochildren _ _ _ _ _ _
              have h1 := updateChild_leavesChildless
                (Subdivide (QuadTreeNode.mk c s m com
                  ([] : List (QuadTreeNode K)) b leaf).clearToInternal)
                rfl hsub
                ((Subdivide (QuadTreeNode.mk c s m com
                  ([] : List (QuadTreeNode K)) b leaf).clearToInternal).GetQuadrant
                  (bodyAt bodies oi).position)
                (fun cnode => InsertBody bodies fuel cnode oi)
                (fun x hx => ih x oi hx)
              exact (updateChild_leavesChildless _ h1.2.1 h1.2.2 _
                (fun cnode => InsertBody bodies fuel cnode bi)
                (fun x hx => ih x bi hx)).1
        · -- internal node
          rename_i hleaf
          have hlf : leaf = false := by
            cases leaf
            · rfl
            · exact absurd rfl hleaf
          subst hlf
          have hux : ∀ x ∈ (QuadTreeNode.mk c s m com ch b false).children,
              LeavesChildless x := by
            intro x hx
            exact leavesChildless_child h (by simpa using hx)
          exact (updateChild_leavesChildless
            (QuadTreeNode.mk c s m com ch b false) rfl hux _
            (fun cnode => InsertBody bodies fuel cnode bi)
            (fun x hx => ih x bi hx)).1

theorem buildTree_leavesChildless {K : Type} [LinearOrderedField K]
    (fuel : ℕ) (bodies : List (Body K)) (root : QuadTreeNode K)
    (hroot : BuildTree fuel bodies = some root) :
    ∃ t : QuadTreeNode K, LeavesChildless t ∧
      root = UpdateMassAndCenter bodies t := by
  unfold BuildTree at hroot
  by_cases he : bodies.isEmpty
  · rw [if_pos he] at hroot
    exact absurd hroot (by simp)
  · rw [if_neg he] at hroot
    refine ⟨_, ?_, (Option.some.inj hroot).symm⟩
    have hbase : LeavesChildless (QuadTreeNode.mk
        (CalculateBounds bodies).1 (CalculateBounds bodies).2 (0 : K) ⟨0, 0⟩ []
        none true) :=
      leavesChildless_mk_nochildren _ _ _ _ _ _
    generalize (QuadTreeNode.mk (CalculateBounds bodies).1
        (CalculateBounds bodies).2 (0 : K) ⟨0, 0⟩ [] none true) = r at hbase ⊢
    induction enumFrom 0 bodies generalizing r with
    | nil => exact hbase
    | cons p ps ihp =>
      rw [List.foldl_cons]
      apply ihp
      split
      · exact insert_leavesChildless bodies fuel r p.1 hbase
      · exact hbase

/-- C3 amended: after BuildTree on bodies with positive masses, every
non-empty leaf carries its body's mass and position, every internal node
satisfies M = Σ(children masses) with the centre of mass equal to the
mass-weighted mean of the children's centres of mass when M > 10⁻⁹ and
to the node's geometric centre otherwise, and every empty LEAF has M = 0
and centre of mass (0,0) — not the node's geometric centre. -/
theorem quadtree_mass_com_invariant {K : Type} [LinearOrderedField K]
    (fuel : ℕ) (bodies : List (Body K)) (root : QuadTreeNode K)
    (hm : ∀ i, 0 < (bodyAt bodies i).mass)
    (hroot : BuildTree fuel bodies = some root) :
    ∀ n ∈ allNodes root, MassComInvariant bodies n := by
  obtain ⟨t, hwf, rfl⟩ := buildTree_leavesChildless fuel bodies root hroot
  exact (updateMC_invariant bodies hm (sizeOf t) t le_rfl hwf).2

/-- C3 counterexample: building the tree over bodies at (0,0) with mass
1 and (1,0) with mass 2 leaves two empty leaf nodes whose centre of mass
is (0,0) while their geometric centres are (1/5, 3/10) and (4/5, 3/10) —
the claim's statement that every empty node has centre of mass equal to
the node's centre fails. -/
theorem quadtree_empty_leaf_counterexample :
    ∃ n ∈ (BuildTree 10
      ([⟨⟨0, 0⟩, ⟨0, 0⟩, ⟨0, 0⟩, ⟨0, 0⟩, 1, 1, 2, false, false, false⟩,
        ⟨⟨1, 0⟩, ⟨0, 0⟩, ⟨0, 0⟩, ⟨0, 0⟩, 2, 1, 2, false, false, false⟩] :
        List (Body ℚ))).elim [] allNodes,
      n.totalMass = 0 ∧ n.isLeaf = true ∧ n.centerOfMass ≠ n.center := by
  with_unfolding_all decide

/-- C3 witness: the same two-body tree satisfies the amended invariant
at every node; its value is the explicit five-node tree below. -/
theorem quadtree_mass_com_invariant_witness :
    (∀ i, 0 < (bodyAt
      ([⟨⟨0, 0⟩, ⟨0, 0⟩, ⟨0, 0⟩, ⟨0, 0⟩, 1, 1, 2, false, false, false⟩,
        ⟨⟨1, 0⟩, ⟨0, 0⟩, ⟨0, 0⟩, ⟨0, 0⟩, 2, 1, 2, false, false, false⟩] :
        List (Body ℚ)) i).mass) ∧
    BuildTree 10
      ([⟨⟨0, 0⟩, ⟨0, 0⟩, ⟨0, 0⟩, ⟨0, 0⟩, 1, 1, 2, false, false, false⟩,
        ⟨⟨1, 0⟩, ⟨0, 0⟩, ⟨0, 0⟩, ⟨0, 0⟩, 2, 1, 2, false, false, false⟩] :
        List (Body ℚ))
      = some (QuadTreeNode.mk ⟨1 / 2, 0⟩ (6 / 5) 3 ⟨2 / 3, 0⟩
          [QuadTreeNode.mk ⟨1 / 5, -(3 / 10)⟩ (3 / 5) 1 ⟨0, 0⟩ [] (some 0) true,
           QuadTreeNode.mk ⟨4 / 5, -(3 / 10)⟩ (3 / 5) 2 ⟨1, 0⟩ [] (some 1) true,
           QuadTreeNode.mk ⟨1 / 5, 3 / 10⟩ (3 / 5) 0 ⟨0, 0⟩ [] none true,
           QuadTreeNode.mk ⟨4 / 5, 3 / 10⟩ (3 / 5) 0 ⟨0, 0⟩ [] none true]
          none false) ∧
    ∀ n ∈ allNodes (QuadTreeNode.mk (⟨1 / 2, 0⟩ : Vec2 ℚ) (6 / 5) 3 ⟨2 / 3, 0⟩
          [QuadTreeNode.mk ⟨1 / 5, -(3 / 10)⟩ (3 / 5) 1 ⟨0, 0⟩ [] (some 0) true,
           QuadTreeNode.mk ⟨4 / 5, -(3 / 10)⟩ (3 / 5) 2 ⟨1, 0⟩ [] (some 1) true,
           QuadTreeNode.mk ⟨1 / 5, 3 / 10⟩ (3 / 5) 0 ⟨0, 0⟩ [] none true,
           QuadTreeNode.mk ⟨4 / 5, 3 / 10⟩ (3 / 5) 0 ⟨0, 0⟩ [] none true]
          none false),
      MassComInvariant
        ([⟨⟨0, 0⟩, ⟨0, 0⟩, ⟨0, 0⟩, ⟨0, 0⟩, 1, 1, 2, false, false, false⟩,
          ⟨⟨1, 0⟩, ⟨0, 0⟩, ⟨0, 0⟩, ⟨0, 0⟩, 2, 1, 2, false, false, false⟩] :
          List (Body ℚ)) n := by
  have hm : ∀ i, 0 < (bodyAt
      ([⟨⟨0, 0⟩, ⟨0, 0⟩, ⟨0, 0⟩, ⟨0, 0⟩, 1, 1, 2, false, false, false⟩,
        ⟨⟨1, 0⟩, ⟨0, 0⟩, ⟨0, 0⟩, ⟨0, 0⟩, 2, 1, 2, false, false, false⟩] :
        List (Body ℚ)) i).mass := by
    intro i
    match i with
    | 0 => with_unfolding_all decide
    | 1 => with_unfolding_all decide
    | n + 2 =>
      show (0 : ℚ) < (List.getD _ (n + 2) defaultBody).mass
      rw [List.getD_cons_succ, List.getD_cons_succ, List.getD_nil]
      with_unfolding_all decide
  have hroot : BuildTree 10
      ([⟨⟨0, 0⟩, ⟨0, 0⟩, ⟨0, 0⟩, ⟨0, 0⟩, 1, 1, 2, false, false, false⟩,
        ⟨⟨1, 0⟩, ⟨0, 0⟩, ⟨0, 0⟩, ⟨0, 0⟩, 2, 1, 2, false, false, false⟩] :
        List (Body ℚ))
      = some (QuadTreeNode.mk ⟨1 / 2, 0⟩ (6 / 5) 3 ⟨2 / 3, 0⟩
          [QuadTreeNode.mk ⟨1 / 5, -(3 / 10)⟩ (3 / 5) 1 ⟨0, 0⟩ [] (some 0) true,
           QuadTreeNode.mk ⟨4 / 5, -(3 / 10)⟩ (3 / 5) 2 ⟨1, 0⟩ [] (some 1) true,
           QuadTreeNode.mk ⟨1 / 5, 3 / 10⟩ (3 / 5) 0 ⟨0, 0⟩ [] none true,
           QuadTreeNode.mk ⟨4 / 5, 3 / 10⟩ (3 / 5) 0 ⟨0, 0⟩ [] none true]
          none false) := by
    with_unfolding_all rfl
  exact ⟨hm, hroot, fun n hn =>
    quadtree_mass_com_invariant 10 _ _ hm hroot n hn⟩

theorem contains_of_bounds {K : Type} [LinearOrderedField K] {c : Vec2 K}
    {s m : K} {com : Vec2 K} {ch : List (QuadTreeNode K)} {b : Option ℕ}
    {leaf : Bool} {p : Vec2 K}
    (h1 : c.x - s * 0.5 ≤ p.x) (h2 : p.x ≤ c.x + s * 0.5)
    (h3 : c.y - s * 0.5 ≤ p.y) (h4 : p.y ≤ c.y + s * 0.5) :
    (QuadTreeNode.mk c s m com ch b leaf).Contains p = true := by
  simp only [QuadTreeNode.Contains, QuadTreeNode.center_mk, QuadTreeNode.size_mk,
    Bool.and_eq_true, decide_eq_true_eq]
  exact ⟨⟨⟨h1, h2⟩, h3⟩, h4⟩

theorem insertBody_into_empty_leaf {K : Type} [LinearOrderedField K]
    (bodies : List (Body K)) (fuel bi : ℕ) (c : Vec2 K) (s m : K) (com : Vec2 K)
    (h : (QuadTreeNode.mk c s m com [] none true).Contains
        (bodyAt bodies bi).position = true) :
    InsertBody bodies (fuel + 1) (QuadTreeNode.mk c s m com [] none true) bi
      = QuadTreeNode.mk c s m com [] (some bi) true := by
  rw [InsertBody]
  simp [h, QuadTreeNode.isLeaf, QuadTreeNode.body, QuadTreeNode.setBody]

theorem insertBody_into_occupied_leaf {K : Type} [LinearOrderedField K]
    (bodies : List (Body K)) (fuel bi oi : ℕ) (c : Vec2 K) (s m : K)
    (com : Vec2 K)
    (hcont : (QuadTreeNode.mk c s m com [] (some oi) true).Contains
        (bodyAt bodies bi).position = true)
    (hfar : ¬(Vec2.dot ((bodyAt bodies oi).position - (bodyAt bodies bi).position)
        ((bodyAt bodies oi).position - (bodyAt bodies bi).position) < 1e-12)) :
    InsertBody bodies (fuel + 1) (QuadTreeNode.mk c s m com [] (some oi) true) bi
      = (let subdivided :=
           Subdivide (QuadTreeNode.mk c s m com [] (some oi) true).clearToInternal
         let n1 := subdivided.updateChild
           (subdivided.GetQuadrant (bodyAt bodies oi).position)
           (fun ch => InsertBody bodies fuel ch oi)
         n1.updateChild (n1.GetQuadrant (bodyAt bodies bi).position)
           (fun ch => InsertBody bodies fuel ch bi)) := by
  rw [InsertBody]
  simp only [hcont, Bool.true_eq_false, if_false, QuadTreeNode.isLeaf_mk,
    if_true, QuadTreeNode.body_mk, hfar]

set_option maxHeartbeats 2000000 in
theorem two_body_tree (d mA mB : ℝ) (hd : 0.1 ≤ d) (hA : 0 < mA) (hB : 0 < mB)
    (hsum : (1e-9 : ℝ) < mA + mB) :
    BuildTree 10 (twoBodies d mA mB)
      = some (QuadTreeNode.mk ⟨d * 0.5, 0⟩ (d * 1.2) (mA + mB)
          ⟨mB * d / (mA + mB), 0⟩
          [QuadTreeNode.mk ⟨d * 0.2, -(d * 0.3)⟩ (d * 0.6) mA ⟨0, 0⟩ []
             (some 0) true,
           QuadTreeNode.mk ⟨d * 0.8, -(d * 0.3)⟩ (d * 0.6) mB ⟨d, 0⟩ []
             (some 1) true,
           QuadTreeNode.mk ⟨d * 0.2, d * 0.3⟩ (d * 0.6) 0 ⟨0, 0⟩ [] none true,
           QuadTreeNode.mk ⟨d * 0.8, d * 0.3⟩ (d * 0.6) 0 ⟨0, 0⟩ [] none true]
          none false) := by
  have hd0 : (0 : ℝ) < d := by linarith
  have hbA : bodyAt (twoBodies d mA mB) 0
      = ⟨⟨0, 0⟩, ⟨0, 0⟩, ⟨0, 0⟩, ⟨0, 0⟩, mA, 1, 2, false, false, false⟩ := rfl
  have hbB : bodyAt (twoBodies d mA mB) 1
      = ⟨⟨d, 0⟩, ⟨0, 0⟩, ⟨0, 0⟩, ⟨0, 0⟩, mB, 1, 2, false, false, false⟩ := rfl
  have hbounds : CalculateBounds (twoBodies d mA mB) = (⟨d * 0.5, 0⟩, d * 1.2) := by
    have h1 : min (0 : ℝ) d = 0 := min_eq_left hd0.le
    have h2 : max (0 : ℝ) d = d := max_eq_right hd0.le
    have h3 : max d (1 / 10 : ℝ) = d := max_eq_left (by linarith)
    have h5 : max (d * (6 / 5)) (1 / 1000 : ℝ) = d * (6 / 5) :=
      max_eq_left (by nlinarith)
    simp only [twoBodies, CalculateBounds, List.foldl]
    norm_num [h1, h2, h3, h5, Vec2.smul_def, Vec2.add_def, Vec2.mk.injEq]
    ring
  have hcA : (QuadTreeNode.mk (⟨d * 0.5, 0⟩ : Vec2 ℝ) (d * 1.2) 0 ⟨0, 0⟩ []
      none true).Contains (⟨0, 0⟩ : Vec2 ℝ) = true := by
    apply contains_of_bounds <;> norm_num <;> linarith
  have h10 : (10 : ℕ) = 9 + 1 := rfl
  have h9 : (9 : ℕ) = 8 + 1 := rfl
  have hins1 : InsertBody (twoBodies d mA mB) 10
      (QuadTreeNode.mk ⟨d * 0.5, 0⟩ (d * 1.2) 0 ⟨0, 0⟩ [] none true) 0
      = QuadTreeNode.mk ⟨d * 0.5, 0⟩ (d * 1.2) 0 ⟨0, 0⟩ [] (some 0) true := by
    rw [h10]
    exact insertBody_into_empty_leaf _ 9 0 _ _ _ _ (by rw [hbA]; exact hcA)
  have hcB : (QuadTreeNode.mk (⟨d * 0.5, 0⟩ : Vec2 ℝ) (d * 1.2) 0 ⟨0, 0⟩ []
      (some 0) true).Contains (⟨d, 0⟩ : Vec2 ℝ) = true := by
    apply contains_of_bounds <;> norm_num <;> linarith
  have hfarAB : ¬(Vec2.dot ((bodyAt (twoBodies d mA mB) 0).position -
        (bodyAt (twoBodies d mA mB) 1).position)
      ((bodyAt (twoBodies d mA mB) 0).position -
        (bodyAt (twoBodies d mA mB) 1).position) < 1e-12) := by
    rw [hbA, hbB]
    simp only [Vec2.sub_def, Vec2.dot]
    norm_num
    nlinarith
  have hsub : Subdivide (QuadTreeNode.clearToInternal
      (QuadTreeNode.mk (⟨d * 0.5, 0⟩ : Vec2 ℝ) (d * 1.2) 0 ⟨0, 0⟩ [] (some 0) true))
      = QuadTreeNode.mk ⟨d * 0.5, 0⟩ (d * 1.2) 0 ⟨0, 0⟩
          [QuadTreeNode.mk ⟨d * 0.2, -(d * 0.3)⟩ (d * 0.6) 0 ⟨0, 0⟩ [] none true,
           QuadTreeNode.mk ⟨d * 0.8, -(d * 0.3)⟩ (d * 0.6) 0 ⟨0, 0⟩ [] none true,
           QuadTreeNode.mk ⟨d * 0.2, d * 0.3⟩ (d * 0.6) 0 ⟨0, 0⟩ [] none true,
           QuadTreeNode.mk ⟨d * 0.8, d * 0.3⟩ (d * 0.6) 0 ⟨0, 0⟩ [] none true]
          none false := by
    simp only [Subdivide, QuadTreeNode.clearToInternal, QuadTreeNode.withChildren,
      QuadTreeNode.GetChildCenter, QuadTreeNode.center_mk, QuadTreeNode.size_mk,
      List.map_cons, List.map_nil,
      show ((0 : ℕ) &&& 1) = 0 from rfl, show ((0 : ℕ) &&& 2) = 0 from rfl,
      show ((1 : ℕ) &&& 1) = 1 from rfl, show ((1 : ℕ) &&& 2) = 0 from rfl,
      show ((2 : ℕ) &&& 1) = 0 from rfl, show ((2 : ℕ) &&& 2) = 2 from rfl,
      show ((3 : ℕ) &&& 1) = 1 from rfl, show ((3 : ℕ) &&& 2) = 2 from rfl]
    norm_num [QuadTreeNode.mk.injEq, Vec2.mk.injEq]
    ring_nf
    norm_num
  have hq0 : ∀ (ch : List (QuadTreeNode ℝ)) (b : Option ℕ) (leaf : Bool),
      QuadTreeNode.GetQuadrant
        (QuadTreeNode.mk (⟨d * 0.5, 0⟩ : Vec2 ℝ) (d * 1.2) 0 ⟨0, 0⟩ ch b leaf)
        (⟨0, 0⟩ : Vec2 ℝ) = 0 := by
    intro ch b leaf
    simp only [QuadTreeNode.GetQuadrant, QuadTreeNode.center_mk]
    rw [if_neg (by norm_num; nlinarith), if_neg (by norm_num)]
  have hqB : ∀ (ch : List (QuadTreeNode ℝ)) (b : Option ℕ) (leaf : Bool),
      QuadTreeNode.GetQuadrant
        (QuadTreeNode.mk (⟨d * 0.5, 0⟩ : Vec2 ℝ) (d * 1.2) 0 ⟨0, 0⟩ ch b leaf)
        (⟨d, 0⟩ : Vec2 ℝ) = 1 := by
    intro ch b leaf
    simp only [QuadTreeNode.GetQuadrant, QuadTreeNode.center_mk]
    rw [if_pos (by norm_num; nlinarith), if_neg (by norm_num)]
  have hu0 : ∀ (c0 c1 c2 c3 : QuadTreeNode ℝ)
      (f : QuadTreeNode ℝ → QuadTreeNode ℝ),
      QuadTreeNode.updateChild
        (QuadTreeNode.mk (⟨d * 0.5, 0⟩ : Vec2 ℝ) (d * 1.2) 0 ⟨0, 0⟩
          [c0, c1, c2, c3] none false) 0 f
      = QuadTreeNode.mk ⟨d * 0.5, 0⟩ (d * 1.2) 0 ⟨0, 0⟩
          [f c0, c1, c2, c3] none false := fun _ _ _ _ _ => rfl
  have hu1 : ∀ (c0 c1 c2 c3 : QuadTreeNode ℝ)
      (f : QuadTreeNode ℝ → QuadTreeNode ℝ),
      QuadTreeNode.updateChild
        (QuadTreeNode.mk (⟨d * 0.5, 0⟩ : Vec2 ℝ) (d * 1.2) 0 ⟨0, 0⟩
          [c0, c1, c2, c3] none false) 1 f
      = QuadTreeNode.mk ⟨d * 0.5, 0⟩ (d * 1.2) 0 ⟨0, 0⟩
          [c0, f c1, c2, c3] none false := fun _ _ _ _ _ => rfl
  have hc0 : (QuadTreeNode.mk (⟨d * 0.2, -(d * 0.3)⟩ : Vec2 ℝ) (d * 0.6) 0 ⟨0, 0⟩
      [] none true).Contains (⟨0, 0⟩ : Vec2 ℝ) = true := by
    apply contains_of_bounds <;> norm_num <;> linarith
  have hc1 : (QuadTreeNode.mk (⟨d * 0.8, -(d * 0.3)⟩ : Vec2 ℝ) (d * 0.6) 0 ⟨0, 0⟩
      [] none true).Contains (⟨d, 0⟩ : Vec2 ℝ) = true := by
    apply contains_of_bounds <;> norm_num <;> linarith
  have hinsc0 : InsertBody (twoBodies d mA mB) 9
      (QuadTreeNode.mk ⟨d * 0.2, -(d * 0.3)⟩ (d * 0.6) 0 ⟨0, 0⟩ [] none true) 0
      = QuadTreeNode.mk ⟨d * 0.2, -(d * 0.3)⟩ (d * 0.6) 0 ⟨0, 0⟩ []
          (some 0) true := by
    rw [h9]
    exact insertBody_into_empty_leaf _ 8 0 _ _ _ _ (by rw [hbA]; exact hc0)
  have hinsc1 : InsertBody (twoBodies d mA mB) 9
      (QuadTreeNode.mk ⟨d * 0.8, -(d * 0.3)⟩ (d * 0.6) 0 ⟨0, 0⟩ [] none true) 1
      = QuadTreeNode.mk ⟨d * 0.8, -(d * 0.3)⟩ (d * 0.6) 0 ⟨0, 0⟩ []
          (some 1) true := by
    rw [h9]
    exact insertBody_into_empty_leaf _ 8 1 _ _ _ _ (by rw [hbB]; exact hc1)
  have hins2 : InsertBody (twoBodies d mA mB) 10
      (QuadTreeNode.mk ⟨d * 0.5, 0⟩ (d * 1.2) 0 ⟨0, 0⟩ [] (some 0) true) 1
      = QuadTreeNode.mk ⟨d * 0.5, 0⟩ (d * 1.2) 0 ⟨0, 0⟩
          [QuadTreeNode.mk ⟨d * 0.2, -(d * 0.3)⟩ (d * 0.6) 0 ⟨0, 0⟩ []
             (some 0) true,
           QuadTreeNode.mk ⟨d * 0.8, -(d * 0.3)⟩ (d * 0.6) 0 ⟨0, 0⟩ []
             (some 1) true,
           QuadTreeNode.mk ⟨d * 0.2, d * 0.3⟩ (d * 0.6) 0 ⟨0, 0⟩ [] none true,
           QuadTreeNode.mk ⟨d * 0.8, d * 0.3⟩ (d * 0.6) 0 ⟨0, 0⟩ [] none true]
          none false := by
    rw [h10, insertBody_into_occupied_leaf _ 9 1 0 _ _ _ _
      (by rw [hbB]; exact hcB) hfarAB]
    simp only [hsub, hbA, hbB]
    simp only [hq0, hqB, hu0, hu1]
    simp only [hinsc0, hinsc1]
  -- final mass pass
  have hmc : UpdateMassAndCenter (twoBodies d mA mB)
      (QuadTreeNode.mk ⟨d * 0.5, 0⟩ (d * 1.2) 0 ⟨0, 0⟩
          [QuadTreeNode.mk ⟨d * 0.2, -(d * 0.3)⟩ (d * 0.6) 0 ⟨0, 0⟩ []
             (some 0) true,
           QuadTreeNode.mk ⟨d * 0.8, -(d * 0.3)⟩ (d * 0.6) 0 ⟨0, 0⟩ []
             (some 1) true,
           QuadTreeNode.mk ⟨d * 0.2, d * 0.3⟩ (d * 0.6) 0 ⟨0, 0⟩ [] none true,
           QuadTreeNode.mk ⟨d * 0.8, d * 0.3⟩ (d * 0.6) 0 ⟨0, 0⟩ [] none true]
          none false)
      = QuadTreeNode.mk ⟨d * 0.5, 0⟩ (d * 1.2) (mA + mB)
          ⟨mB * d / (mA + mB), 0⟩
          [QuadTreeNode.mk ⟨d * 0.2, -(d * 0.3)⟩ (d * 0.6) mA ⟨0, 0⟩ []
             (some 0) true,
           QuadTreeNode.mk ⟨d * 0.8, -(d * 0.3)⟩ (d * 0.6) mB ⟨d, 0⟩ []
             (some 1) true,
           QuadTreeNode.mk ⟨d * 0.2, d * 0.3⟩ (d * 0.6) 0 ⟨0, 0⟩ [] none true,
           QuadTreeNode.mk ⟨d * 0.8, d * 0.3⟩ (d * 0.6) 0 ⟨0, 0⟩ [] none true]
          none false := by
    have hleafA : UpdateMassAndCenter (twoBodies d mA mB)
        (QuadTreeNode.mk ⟨d * 0.2, -(d * 0.3)⟩ (d * 0.6) 0 ⟨0, 0⟩ []
          (some 0) true)
        = QuadTreeNode.mk ⟨d * 0.2, -(d * 0.3)⟩ (d * 0.6) mA ⟨0, 0⟩ []
            (some 0) true := by
      rw [UpdateMassAndCenter.eq_def]; simp [hbA]
    have hleafB : UpdateMassAndCenter (twoBodies d mA mB)
        (QuadTreeNode.mk ⟨d * 0.8, -(d * 0.3)⟩ (d * 0.6) 0 ⟨0, 0⟩ []
          (some 1) true)
        = QuadTreeNode.mk ⟨d * 0.8, -(d * 0.3)⟩ (d * 0.6) mB ⟨d, 0⟩ []
            (some 1) true := by
      rw [UpdateMassAndCenter.eq_def]; simp [hbB]
    have hleafE2 : UpdateMassAndCenter (twoBodies d mA mB)
        (QuadTreeNode.mk ⟨d * 0.2, d * 0.3⟩ (d * 0.6) 0 ⟨0, 0⟩ [] none true)
        = QuadTreeNode.mk ⟨d * 0.2, d * 0.3⟩ (d * 0.6) 0 ⟨0, 0⟩ []
            none true := by
      rw [UpdateMassAndCenter.eq_def]; simp
    have hleafE3 : UpdateMassAndCenter (twoBodies d mA mB)
        (QuadTreeNode.mk ⟨d * 0.8, d * 0.3⟩ (d * 0.6) 0 ⟨0, 0⟩ [] none true)
        = QuadTreeNode.mk ⟨d * 0.8, d * 0.3⟩ (d * 0.6) 0 ⟨0, 0⟩ []
            none true := by
      rw [UpdateMassAndCenter.eq_def]; simp
    rw [UpdateMassAndCenter.eq_def]
    simp only [if_neg (Bool.false_ne_true)]
    rw [UpdateChildrenMass, UpdateChildrenMass, UpdateChildrenMass,
      UpdateChildrenMass, UpdateChildrenMass]
    simp only [hleafA, hleafB, hleafE2, hleafE3, List.foldl,
      QuadTreeNode.totalMass_mk, QuadTreeNode.centerOfMass_mk,
      if_pos hA, if_pos hB, if_neg (lt_irrefl (0 : ℝ))]
    rw [if_pos (show (1e-9 : ℝ) < 0 + mA + mB by linarith)]
    have hne : mA + mB ≠ 0 := by positivity
    simp only [QuadTreeNode.mk.injEq, Vec2.smul_def, Vec2.add_def,
      Vec2.zero_def, Vec2.mk.injEq]
    refine ⟨trivial, trivial, by ring, ⟨by field_simp, by ring⟩,
      trivial, trivial, trivial⟩
  rw [show BuildTree 10 (twoBodies d mA mB)
      = some (UpdateMassAndCenter (twoBodies d mA mB)
          ((enumFrom 0 (twoBodies d mA mB)).foldl
            (fun r p => if r.Contains p.2.position
              then InsertBody (twoBodies d mA mB) 10 r p.1 else r)
            (QuadTreeNode.mk (CalculateBounds (twoBodies d mA mB)).1
              (CalculateBounds (twoBodies d mA mB)).2 0 ⟨0, 0⟩ [] none true)))
      from rfl]
  rw [hbounds]
  simp only [enumFrom, List.foldl]
  simp only [hcA, hcB, if_true, eq_self_iff_true, hins1, hins2]
  rw [hmc]

/-!
C4: the opening criterion of the Barnes-Hut traversal, characterised
over the visit log.
-/

theorem mem_calcForceChildren_log {selfIdx : ℕ} {pos : Vec2 ℝ} {theta G : ℝ}
    {p : QuadTreeNode ℝ × Bool} :
    ∀ {l : List (QuadTreeNode ℝ)},
      p ∈ (CalculateForceChildren selfIdx pos theta G l).2 ↔
        ∃ t ∈ l, p ∈ (CalculateForceNode selfIdx pos theta G t).2 := by
  intro l
  induction l with
  | nil => simp [CalculateForceChildren]
  | cons t ts ih =>
    rw [CalculateForceChildren]
    simp only [List.mem_append, ih, List.mem_cons]
    constructor
    · rintro (h | ⟨c, hc, hn⟩)
      · exact ⟨t, Or.inl rfl, h⟩
      · exact ⟨c, Or.inr hc, hn⟩
    · rintro ⟨c, hc | hc, hn⟩
      · exact Or.inl (hc ▸ hn)
      · exact Or.inr ⟨c, hc, hn⟩

theorem calcForceNode_log_spec (selfIdx : ℕ) (pos : Vec2 ℝ) (theta G : ℝ) :
    ∀ (N : ℕ) (t : QuadTreeNode ℝ), sizeOf t ≤ N →
      ∀ p ∈ (CalculateForceNode selfIdx pos theta G t).2,
        0 < p.1.totalMass ∧
        ¬(p.1.isLeaf = true ∧ p.1.body = some selfIdx) ∧
        (p.2 = true ↔
          (p.1.size < theta * (Real.sqrt (Vec2.dot (p.1.centerOfMass - pos)
              (p.1.centerOfMass - pos)) + 1e-10) ∨ p.1.isLeaf = true)) := by
  intro N
  induction N with
  | zero =>
    intro t ht
    exfalso
    cases t with
    | mk c s m com ch b leaf =>
      simp only [QuadTreeNode.mk.sizeOf_spec] at ht
      omega
  | succ N ih =>
    intro t ht
    cases t with
    | mk c s m com ch b leaf =>
      simp only [CalculateForceNode]
      by_cases hm : m ≤ 0
      · rw [if_pos hm]
        intro p hp
        simp at hp
      · rw [if_neg hm]
        by_cases hself : leaf = true ∧ b = some selfIdx
        · rw [if_pos hself]
          intro p hp
          simp at hp
        · rw [if_neg hself]
          have hpos' : 0 < Real.sqrt (Vec2.dot (com - pos) (com - pos))
              + 1e-10 := by
            have h := Real.sqrt_nonneg (Vec2.dot (com - pos) (com - pos))
            norm_num
            linarith
          by_cases hr : s / (Real.sqrt (Vec2.dot (com - pos) (com - pos))
              + 1e-10) < theta
          · rw [if_pos hr]
            intro p hp
            simp only [List.mem_singleton] at hp
            subst hp
            refine ⟨by simpa using not_le.mp hm, by simpa using hself, ?_⟩
            simp only [QuadTreeNode.size_mk, QuadTreeNode.centerOfMass_mk,
              QuadTreeNode.isLeaf_mk]
            exact iff_of_true (by trivial) (Or.inl ((div_lt_iff₀ hpos').mp hr))
          · rw [if_neg hr]
            by_cases hl : leaf = true
            · rw [if_pos hl]
              intro p hp
              simp only [List.mem_singleton] at hp
              subst hp
              refine ⟨by simpa using not_le.mp hm, by simpa using hself, ?_⟩
              simp only [QuadTreeNode.isLeaf_mk]
              exact iff_of_true (by trivial) (Or.inr hl)
            · rw [if_neg hl]
              intro p hp
              simp only [List.mem_cons] at hp
              rcases hp with hp | hp
              · subst hp
                refine ⟨by simpa using not_le.mp hm, by simpa using hself, ?_⟩
                simp only [QuadTreeNode.size_mk, QuadTreeNode.centerOfMass_mk,
                  QuadTreeNode.isLeaf_mk]
                refine iff_of_false (by simp) ?_
                rintro (hlt | hleaf)
                · exact absurd hlt (not_lt.mpr ((le_div_iff₀ hpos').mp
                    (not_lt.mp hr)))
                · exact hl hleaf
              · obtain ⟨t', ht', hp'⟩ := mem_calcForceChildren_log.mp hp
                have h1 : sizeOf t'
                    < sizeOf (QuadTreeNode.mk c s m com ch b leaf) := by
                  have h2 := List.sizeOf_lt_of_mem ht'
                  simp only [QuadTreeNode.mk.sizeOf_spec]
                  omega
                exact ih t' (Nat.le_of_lt_succ (lt_of_lt_of_le h1 ht)) p hp'

/-- C4 (amended): every entry of the Barnes–Hut traversal's visit log
has positive mass and is not the leaf holding the target body itself,
and it is handled as a single point mass (no descent) exactly when its
full width w satisfies w < theta * (d + 1e-10) — with d the distance
from the target position to the node's centre of mass and 1e-10 the
guard added to the denominator of the source's w/(d+1e-10) < theta
test — or the node is a leaf; otherwise its children are visited. -/
theorem bh_opening_criterion (selfIdx : ℕ) (pos : Vec2 ℝ) (theta G : ℝ)
    (root : QuadTreeNode ℝ) :
    ∀ p ∈ ForceVisitLog selfIdx pos theta G root,
      0 < p.1.totalMass ∧
      ¬(p.1.isLeaf = true ∧ p.1.body = some selfIdx) ∧
      (p.2 = true ↔
        (p.1.size < theta * (Real.sqrt (Vec2.dot (p.1.centerOfMass - pos)
            (p.1.centerOfMass - pos)) + 1e-10) ∨ p.1.isLeaf = true)) :=
  fun p hp =>
    calcForceNode_log_spec selfIdx pos theta G (sizeOf root) root le_rfl p hp

theorem bh_visit_log_single_leaf :
    ForceVisitLog 0 ⟨0, 0⟩ (1 / 2) 1
      (QuadTreeNode.mk ⟨0, 0⟩ 0.001 10 ⟨1 / 100, 0⟩ [] (some 1) true)
      = [(QuadTreeNode.mk ⟨0, 0⟩ 0.001 10 ⟨1 / 100, 0⟩ [] (some 1) true,
          true)] := by
  simp only [ForceVisitLog, CalculateForceNode]
  have hv : ((⟨1 / 100, 0⟩ : Vec2 ℝ) - ⟨0, 0⟩) = ⟨1 / 100, 0⟩ := by
    ext <;> norm_num [Vec2.sub_def]
  rw [hv]
  have hd : Vec2.dot (⟨1 / 100, 0⟩ : Vec2 ℝ) ⟨1 / 100, 0⟩ = 1 / 10000 := by
    norm_num [Vec2.dot]
  rw [hd]
  have hs : Real.sqrt ((1 : ℝ) / 10000) = 1 / 100 := by
    rw [show ((1 : ℝ) / 10000) = (1 / 100) ^ 2 by norm_num,
      Real.sqrt_sq (by norm_num)]
  rw [hs]
  rw [if_neg (by norm_num), if_neg (by simp), if_pos (by norm_num)]

/-- C4 witness: on a single-leaf tree holding body 1 at (1/100,0), the
traversal for body 0 at the origin with theta = 1/2 logs exactly that
leaf, handled as a point mass, and the opening-criterion
characterisation holds for that log entry. -/
theorem bh_opening_criterion_witness :
    ∃ p ∈ ForceVisitLog 0 ⟨0, 0⟩ (1 / 2) 1
        (QuadTreeNode.mk ⟨0, 0⟩ 0.001 10 ⟨1 / 100, 0⟩ [] (some 1) true),
      0 < p.1.totalMass ∧
      ¬(p.1.isLeaf = true ∧ p.1.body = some 0) ∧
      (p.2 = true ↔
        (p.1.size < (1 / 2) * (Real.sqrt (Vec2.dot (p.1.centerOfMass - ⟨0, 0⟩)
            (p.1.centerOfMass - ⟨0, 0⟩)) + 1e-10) ∨ p.1.isLeaf = true)) := by
  have hm : (QuadTreeNode.mk (⟨0, 0⟩ : Vec2 ℝ) 0.001 10 ⟨1 / 100, 0⟩ []
      (some 1) true, true) ∈ ForceVisitLog 0 ⟨0, 0⟩ (1 / 2) 1
        (QuadTreeNode.mk ⟨0, 0⟩ 0.001 10 ⟨1 / 100, 0⟩ [] (some 1) true) := by
    rw [bh_visit_log_single_leaf]
    exact List.mem_singleton_self _
  exact ⟨_, hm, bh_opening_criterion 0 ⟨0, 0⟩ (1 / 2) 1 _ _ hm⟩

/-- C4 counterexample: two unit-mass bodies at (0,0) and (1,0) with
theta = 2.4.  The root has width w = 1.2 and the distance from body 0 to
the root's centre of mass is exactly 1/2, so w = theta * d exactly: the
claim's criterion w < theta * d fails and the root is no leaf, yet the
source's test w / (d + 1e-10) < theta passes and the traversal handles
the root as a point mass without descending. -/
theorem bh_opening_criterion_counterexample :
    ∃ root : QuadTreeNode ℝ, BuildTree 10 (twoBodies 1 1 1) = some root ∧
      ∃ p ∈ ForceVisitLog 0 ⟨0, 0⟩ 2.4 1 root,
        p.2 = true ∧ p.1.isLeaf = false ∧
        ¬(p.1.size < 2.4 * Real.sqrt (Vec2.dot (p.1.centerOfMass - ⟨0, 0⟩)
            (p.1.centerOfMass - ⟨0, 0⟩))) := by
  have htree := two_body_tree 1 1 1 (by norm_num) (by norm_num) (by norm_num)
    (by norm_num)
  refine ⟨_, htree, ?_⟩
  have hv : ((⟨1 * 1 / (1 + 1), 0⟩ : Vec2 ℝ) - ⟨0, 0⟩) = ⟨1 / 2, 0⟩ := by
    ext <;> norm_num [Vec2.sub_def]
  have hd : Vec2.dot (⟨1 / 2, 0⟩ : Vec2 ℝ) ⟨1 / 2, 0⟩ = 1 / 4 := by
    norm_num [Vec2.dot]
  have hs : Real.sqrt ((1 : ℝ) / 4) = 1 / 2 := by
    rw [show ((1 : ℝ) / 4) = (1 / 2) ^ 2 by norm_num,
      Real.sqrt_sq (by norm_num)]
  have hlog : ForceVisitLog 0 ⟨0, 0⟩ 2.4 1
      (QuadTreeNode.mk ⟨1 * 0.5, 0⟩ (1 * 1.2) (1 + 1) ⟨1 * 1 / (1 + 1), 0⟩
        [QuadTreeNode.mk ⟨1 * 0.2, -(1 * 0.3)⟩ (1 * 0.6) 1 ⟨0, 0⟩ []
           (some 0) true,
         QuadTreeNode.mk ⟨1 * 0.8, -(1 * 0.3)⟩ (1 * 0.6) 1 ⟨1, 0⟩ []
           (some 1) true,
         QuadTreeNode.mk ⟨1 * 0.2, 1 * 0.3⟩ (1 * 0.6) 0 ⟨0, 0⟩ [] none true,
         QuadTreeNode.mk ⟨1 * 0.8, 1 * 0.3⟩ (1 * 0.6) 0 ⟨0, 0⟩ [] none true]
        none false)
      = [(QuadTreeNode.mk ⟨1 * 0.5, 0⟩ (1 * 1.2) (1 + 1) ⟨1 * 1 / (1 + 1), 0⟩
          [QuadTreeNode.mk ⟨1 * 0.2, -(1 * 0.3)⟩ (1 * 0.6) 1 ⟨0, 0⟩ []
             (some 0) true,
           QuadTreeNode.mk ⟨1 * 0.8, -(1 * 0.3)⟩ (1 * 0.6) 1 ⟨1, 0⟩ []
             (some 1) true,
           QuadTreeNode.mk ⟨1 * 0.2, 1 * 0.3⟩ (1 * 0.6) 0 ⟨0, 0⟩ [] none true,
           QuadTreeNode.mk ⟨1 * 0.8, 1 * 0.3⟩ (1 * 0.6) 0 ⟨0, 0⟩ [] none true]
          none false, true)] := by
    simp only [ForceVisitLog, CalculateForceNode]
    rw [hv, hd, hs]
    rw [if_neg (by norm_num), if_neg (by simp), if_pos (by norm_num)]
  have hm2 : (QuadTreeNode.mk (⟨1 * 0.5, 0⟩ : Vec2 ℝ) (1 * 1.2) (1 + 1)
      ⟨1 * 1 / (1 + 1), 0⟩
      [QuadTreeNode.mk ⟨1 * 0.2, -(1 * 0.3)⟩ (1 * 0.6) 1 ⟨0, 0⟩ []
         (some 0) true,
       QuadTreeNode.mk ⟨1 * 0.8, -(1 * 0.3)⟩ (1 * 0.6) 1 ⟨1, 0⟩ []
         (some 1) true,
       QuadTreeNode.mk ⟨1 * 0.2, 1 * 0.3⟩ (1 * 0.6) 0 ⟨0, 0⟩ [] none true,
       QuadTreeNode.mk ⟨1 * 0.8, 1 * 0.3⟩ (1 * 0.6) 0 ⟨0, 0⟩ [] none true]
      none false, true) ∈ ForceVisitLog 0 ⟨0, 0⟩ 2.4 1
        (QuadTreeNode.mk ⟨1 * 0.5, 0⟩ (1 * 1.2) (1 + 1) ⟨1 * 1 / (1 + 1), 0⟩
          [QuadTreeNode.mk ⟨1 * 0.2, -(1 * 0.3)⟩ (1 * 0.6) 1 ⟨0, 0⟩ []
             (some 0) true,
           QuadTreeNode.mk ⟨1 * 0.8, -(1 * 0.3)⟩ (1 * 0.6) 1 ⟨1, 0⟩ []
             (some 1) true,
           QuadTreeNode.mk ⟨1 * 0.2, 1 * 0.3⟩ (1 * 0.6) 0 ⟨0, 0⟩ [] none true,
           QuadTreeNode.mk ⟨1 * 0.8, 1 * 0.3⟩ (1 * 0.6) 0 ⟨0, 0⟩ [] none true]
          none false) := by
    rw [hlog]
    exact List.mem_singleton_self _
  refine ⟨_, hm2, rfl, rfl, ?_⟩
  simp only [QuadTreeNode.size_mk, QuadTreeNode.centerOfMass_mk]
  rw [hv, hd, hs]
  norm_num

/-!
C1: two-body sanity for the direct and Barnes-Hut evaluators.
-/

theorem calcGravForce_x (dx d2 mB G eps : ℝ) (hguard : d2 > 1e-10)
    (hd2 : Vec2.dot ⟨dx, 0⟩ ⟨dx, 0⟩ = d2) :
    CalculateGravitationalForce ⟨0, 0⟩ ⟨dx, 0⟩ mB G eps
      = ((G * mB / (d2 + eps * eps)) * (1 / Real.sqrt d2)) • (⟨dx, 0⟩ : Vec2 ℝ) := by
  simp only [CalculateGravitationalForce]
  have hsub : ((⟨dx, 0⟩ : Vec2 ℝ) - ⟨0, 0⟩) = ⟨dx, 0⟩ := by
    ext <;> simp [Vec2.sub_def]
  rw [hsub, hd2, if_pos hguard]

theorem directPair_right (d mB G eps : ℝ) (hd : 0.1 ≤ d) (hB : 0 < mB)
    (hG : 0 < G) (hcap : G * mB / (d ^ 2 + eps ^ 2) ≤ 10000) :
    DirectPairContribution ⟨0, 0⟩ ⟨d, 0⟩ mB G eps
      = ⟨G * mB / (d ^ 2 + eps ^ 2), 0⟩ := by
  have hd0 : (0 : ℝ) < d := by linarith
  have hdot : Vec2.dot (⟨d, 0⟩ : Vec2 ℝ) ⟨d, 0⟩ = d ^ 2 := by
    simp [Vec2.dot]; ring
  have hguard : d ^ 2 > 1e-10 := by nlinarith
  have hgf : CalculateGravitationalForce ⟨0, 0⟩ ⟨d, 0⟩ mB G eps
      = ⟨G * mB / (d ^ 2 + eps ^ 2), 0⟩ := by
    rw [calcGravForce_x d (d ^ 2) mB G eps hguard hdot, Real.sqrt_sq hd0.le]
    have hdne : d ≠ 0 := ne_of_gt hd0
    have hden : d ^ 2 + eps ^ 2 ≠ 0 := by positivity
    have hX : d * eps ^ 2 + d ^ 3 ≠ 0 := by positivity
    ext
    · simp only [Vec2.smul_def]
      field_simp
      have h1 : 0 < d ^ 2 + eps * eps := by nlinarith [mul_self_nonneg eps]
      rw [div_eq_iff (mul_pos h1 hd0).ne']
      ring
    · simp [Vec2.smul_def]
  simp only [DirectPairContribution, hgf]
  rw [if_neg]
  rw [len_single_x, abs_of_nonneg (by positivity)]
  exact not_lt.mpr hcap

theorem directPair_left (d mA G eps : ℝ) (hd : 0.1 ≤ d) (hA : 0 < mA)
    (hG : 0 < G) (hcap : G * mA / (d ^ 2 + eps ^ 2) ≤ 10000) :
    DirectPairContribution ⟨d, 0⟩ ⟨0, 0⟩ mA G eps
      = ⟨-(G * mA / (d ^ 2 + eps ^ 2)), 0⟩ := by
  have hd0 : (0 : ℝ) < d := by linarith
  have hdot : Vec2.dot (⟨-d, 0⟩ : Vec2 ℝ) ⟨-d, 0⟩ = d ^ 2 := by
    simp [Vec2.dot]; ring
  have hguard : d ^ 2 > 1e-10 := by nlinarith
  have hgf : CalculateGravitationalForce ⟨d, 0⟩ ⟨0, 0⟩ mA G eps
      = ⟨-(G * mA / (d ^ 2 + eps ^ 2)), 0⟩ := by
    simp only [CalculateGravitationalForce]
    have hsub : ((⟨0, 0⟩ : Vec2 ℝ) - ⟨d, 0⟩) = ⟨-d, 0⟩ := by
      ext <;> simp [Vec2.sub_def]
    rw [hsub, hdot, if_pos hguard, Real.sqrt_sq hd0.le]
    have hdne : d ≠ 0 := ne_of_gt hd0
    have hden : d ^ 2 + eps ^ 2 ≠ 0 := by positivity
    have hX : d * eps ^ 2 + d ^ 3 ≠ 0 := by positivity
    ext
    · simp only [Vec2.smul_def]
      field_simp
      have h1 : 0 < d ^ 2 + eps * eps := by nlinarith [mul_self_nonneg eps]
      rw [div_eq_iff (mul_pos h1 hd0).ne']
      ring
    · simp [Vec2.smul_def]
  simp only [DirectPairContribution, hgf]
  rw [if_neg]
  have hlen : len (⟨-(G * mA / (d ^ 2 + eps ^ 2)), 0⟩ : Vec2 ℝ)
      = G * mA / (d ^ 2 + eps ^ 2) := by
    rw [len_single_x, abs_neg, abs_of_nonneg (by positivity)]
  rw [hlen]
  exact not_lt.mpr hcap

theorem forcesDirect_two_body (d mA mB G eps : ℝ) (hd : 0.1 ≤ d)
    (hA : 0 < mA) (hB : 0 < mB) (hG : 0 < G)
    (hcapA : G * mB / (d ^ 2 + eps ^ 2) ≤ 10000)
    (hcapB : G * mA / (d ^ 2 + eps ^ 2) ≤ 10000) :
    (CalculateForcesDirect G eps (twoBodies d mA mB)).map Body.force
      = [⟨G * mB / (d ^ 2 + eps ^ 2), 0⟩,
         ⟨-(G * mA / (d ^ 2 + eps ^ 2)), 0⟩] := by
  simp only [CalculateForcesDirect, twoBodies, enumFrom, List.map_cons,
    List.map_nil, List.foldl]
  norm_num [directPair_right d mB G eps hd hB hG hcapA,
    directPair_left d mA G eps hd hA hG hcapB, Vec2.zero_def]
  rfl

theorem treeForce_on_A (d mA mB G theta : ℝ) (hd : 0.1 ≤ d) (hA : 0 < mA)
    (hB : 0 < mB) (htheta1 : theta ≤ 1) :
    CalculateForceNode 0 ⟨0, 0⟩ theta G
      (QuadTreeNode.mk ⟨d * 0.5, 0⟩ (d * 1.2) (mA + mB)
        ⟨mB * d / (mA + mB), 0⟩
        [QuadTreeNode.mk ⟨d * 0.2, -(d * 0.3)⟩ (d * 0.6) mA ⟨0, 0⟩ []
           (some 0) true,
         QuadTreeNode.mk ⟨d * 0.8, -(d * 0.3)⟩ (d * 0.6) mB ⟨d, 0⟩ []
           (some 1) true,
         QuadTreeNode.mk ⟨d * 0.2, d * 0.3⟩ (d * 0.6) 0 ⟨0, 0⟩ [] none true,
         QuadTreeNode.mk ⟨d * 0.8, d * 0.3⟩ (d * 0.6) 0 ⟨0, 0⟩ [] none true]
        none false)
      = ((⟨G * mB / (d ^ 2 + 1 / 10000), 0⟩ : Vec2 ℝ),
         [(QuadTreeNode.mk ⟨d * 0.5, 0⟩ (d * 1.2) (mA + mB)
            ⟨mB * d / (mA + mB), 0⟩
            [QuadTreeNode.mk ⟨d * 0.2, -(d * 0.3)⟩ (d * 0.6) mA ⟨0, 0⟩ []
               (some 0) true,
             QuadTreeNode.mk ⟨d * 0.8, -(d * 0.3)⟩ (d * 0.6) mB ⟨d, 0⟩ []
               (some 1) true,
             QuadTreeNode.mk ⟨d * 0.2, d * 0.3⟩ (d * 0.6) 0 ⟨0, 0⟩ []
               none true,
             QuadTreeNode.mk ⟨d * 0.8, d * 0.3⟩ (d * 0.6) 0 ⟨0, 0⟩ []
               none true]
            none false, false),
          (QuadTreeNode.mk ⟨d * 0.8, -(d * 0.3)⟩ (d * 0.6) mB ⟨d, 0⟩ []
            (some 1) true, true)]) := by
  have hd0 : (0 : ℝ) < d := by linarith
  have hsumpos : (0 : ℝ) < mA + mB := by linarith
  -- the centre-of-mass offset of the root as seen from A
  have hcomx : (0 : ℝ) ≤ mB * d / (mA + mB) := by positivity
  have hcomle : mB * d / (mA + mB) ≤ d := by
    rw [div_le_iff₀ hsumpos]
    nlinarith
  have hsubA : ((⟨mB * d / (mA + mB), 0⟩ : Vec2 ℝ) - ⟨0, 0⟩)
      = ⟨mB * d / (mA + mB), 0⟩ := by
    ext <;> simp [Vec2.sub_def]
  have hdotA : Vec2.dot (⟨mB * d / (mA + mB), 0⟩ : Vec2 ℝ)
      ⟨mB * d / (mA + mB), 0⟩ = (mB * d / (mA + mB)) ^ 2 := by
    simp [Vec2.dot]
    ring
  have hsqrtA : Real.sqrt ((mB * d / (mA + mB)) ^ 2) = mB * d / (mA + mB) :=
    Real.sqrt_sq hcomx
  -- children evaluations
  have hc0 : CalculateForceNode 0 ⟨0, 0⟩ theta G
      (QuadTreeNode.mk ⟨d * 0.2, -(d * 0.3)⟩ (d * 0.6) mA ⟨0, 0⟩ []
        (some 0) true) = (0, []) := by
    simp only [CalculateForceNode]
    rw [if_neg (not_le.mpr hA)]
    simp
  have hc2 : CalculateForceNode 0 ⟨0, 0⟩ theta G
      (QuadTreeNode.mk ⟨d * 0.2, d * 0.3⟩ (d * 0.6) 0 ⟨0, 0⟩ [] none true)
      = (0, []) := by
    simp only [CalculateForceNode]
    rw [if_pos le_rfl]
  have hc3 : CalculateForceNode 0 ⟨0, 0⟩ theta G
      (QuadTreeNode.mk ⟨d * 0.8, d * 0.3⟩ (d * 0.6) 0 ⟨0, 0⟩ [] none true)
      = (0, []) := by
    simp only [CalculateForceNode]
    rw [if_pos le_rfl]
  have hsubB : ((⟨d, 0⟩ : Vec2 ℝ) - ⟨0, 0⟩) = ⟨d, 0⟩ := by
    ext <;> simp [Vec2.sub_def]
  have hdotB : Vec2.dot (⟨d, 0⟩ : Vec2 ℝ) ⟨d, 0⟩ = d ^ 2 := by
    simp [Vec2.dot]
    ring
  have hnd2 : ¬(d ^ 2 ≤ 0) := not_le.mpr (by positivity)
  have hval : ((G * mB / (d ^ 2 + 0.01 * 0.01)) / d) • (⟨d, 0⟩ : Vec2 ℝ)
      = ⟨G * mB / (d ^ 2 + 1 / 10000), 0⟩ := by
    ext
    · simp only [Vec2.smul_def]
      rw [div_mul_eq_mul_div, div_eq_iff (ne_of_gt hd0)]
      norm_num
    · simp [Vec2.smul_def]
  have hc1 : CalculateForceNode 0 ⟨0, 0⟩ theta G
      (QuadTreeNode.mk ⟨d * 0.8, -(d * 0.3)⟩ (d * 0.6) mB ⟨d, 0⟩ []
        (some 1) true)
      = ((⟨G * mB / (d ^ 2 + 1 / 10000), 0⟩ : Vec2 ℝ),
         [(QuadTreeNode.mk ⟨d * 0.8, -(d * 0.3)⟩ (d * 0.6) mB ⟨d, 0⟩ []
            (some 1) true, true)]) := by
    simp only [CalculateForceNode]
    rw [if_neg (not_le.mpr hB), if_neg (by simp), hsubB, hdotB,
      Real.sqrt_sq hd0.le]
    by_cases hr : d * 0.6 / (d + 1e-10) < theta
    · rw [if_pos hr, if_neg hnd2, hval]
    · rw [if_neg hr, if_pos (by trivial)]
      rw [if_neg hnd2, hval]
  -- root: does not pass the opening test, descends
  have hratio : ¬(d * 1.2 / (mB * d / (mA + mB) + 1e-10) < theta) := by
    rw [not_lt, le_div_iff₀ (by positivity)]
    nlinarith
  simp only [CalculateForceNode]
  rw [if_neg (not_le.mpr hsumpos), if_neg (by simp), hsubA, hdotA, hsqrtA,
    if_neg hratio, if_neg Bool.false_ne_true]
  rw [CalculateForceChildren, CalculateForceChildren, CalculateForceChildren,
    CalculateForceChildren, CalculateForceChildren]
  rw [hc0, hc1, hc2, hc3]
  simp only [zero_add, add_zero, List.append_nil, List.nil_append,
    Prod.mk.injEq]

theorem treeForce_on_B (d mA mB G theta : ℝ) (hd : 0.1 ≤ d) (hA : 0 < mA)
    (hB : 0 < mB) (htheta1 : theta ≤ 1) :
    CalculateForceNode 1 ⟨d, 0⟩ theta G
      (QuadTreeNode.mk ⟨d * 0.5, 0⟩ (d * 1.2) (mA + mB)
        ⟨mB * d / (mA + mB), 0⟩
        [QuadTreeNode.mk ⟨d * 0.2, -(d * 0.3)⟩ (d * 0.6) mA ⟨0, 0⟩ []
           (some 0) true,
         QuadTreeNode.mk ⟨d * 0.8, -(d * 0.3)⟩ (d * 0.6) mB ⟨d, 0⟩ []
           (some 1) true,
         QuadTreeNode.mk ⟨d * 0.2, d * 0.3⟩ (d * 0.6) 0 ⟨0, 0⟩ [] none true,
         QuadTreeNode.mk ⟨d * 0.8, d * 0.3⟩ (d * 0.6) 0 ⟨0, 0⟩ [] none true]
        none false)
      = ((⟨-(G * mA / (d ^ 2 + 1 / 10000)), 0⟩ : Vec2 ℝ),
         [(QuadTreeNode.mk ⟨d * 0.5, 0⟩ (d * 1.2) (mA + mB)
            ⟨mB * d / (mA + mB), 0⟩
            [QuadTreeNode.mk ⟨d * 0.2, -(d * 0.3)⟩ (d * 0.6) mA ⟨0, 0⟩ []
               (some 0) true,
             QuadTreeNode.mk ⟨d * 0.8, -(d * 0.3)⟩ (d * 0.6) mB ⟨d, 0⟩ []
               (some 1) true,
             QuadTreeNode.mk ⟨d * 0.2, d * 0.3⟩ (d * 0.6) 0 ⟨0, 0⟩ []
               none true,
             QuadTreeNode.mk ⟨d * 0.8, d * 0.3⟩ (d * 0.6) 0 ⟨0, 0⟩ []
               none true]
            none false, false),
          (QuadTreeNode.mk ⟨d * 0.2, -(d * 0.3)⟩ (d * 0.6) mA ⟨0, 0⟩ []
            (some 0) true, true)]) := by
  have hd0 : (0 : ℝ) < d := by linarith
  have hsumpos : (0 : ℝ) < mA + mB := by linarith
  have hcomx : (0 : ℝ) ≤ mA * d / (mA + mB) := by positivity
  have hcomle : mA * d / (mA + mB) ≤ d := by
    rw [div_le_iff₀ hsumpos]
    nlinarith
  have hsubA : ((⟨mB * d / (mA + mB), 0⟩ : Vec2 ℝ) - ⟨d, 0⟩)
      = ⟨-(mA * d / (mA + mB)), 0⟩ := by
    ext
    · simp only [Vec2.sub_def]
      field_simp
      ring
    · simp [Vec2.sub_def]
  have hdotA : Vec2.dot (⟨-(mA * d / (mA + mB)), 0⟩ : Vec2 ℝ)
      ⟨-(mA * d / (mA + mB)), 0⟩ = (mA * d / (mA + mB)) ^ 2 := by
    simp [Vec2.dot]
    ring
  have hsqrtA : Real.sqrt ((mA * d / (mA + mB)) ^ 2) = mA * d / (mA + mB) :=
    Real.sqrt_sq hcomx
  have hc1 : CalculateForceNode 1 ⟨d, 0⟩ theta G
      (QuadTreeNode.mk ⟨d * 0.8, -(d * 0.3)⟩ (d * 0.6) mB ⟨d, 0⟩ []
        (some 1) true) = (0, []) := by
    simp only [CalculateForceNode]
    rw [if_neg (not_le.mpr hB)]
    simp
  have hc2 : CalculateForceNode 1 ⟨d, 0⟩ theta G
      (QuadTreeNode.mk ⟨d * 0.2, d * 0.3⟩ (d * 0.6) 0 ⟨0, 0⟩ [] none true)
      = (0, []) := by
    simp only [CalculateForceNode]
    rw [if_pos le_rfl]
  have hc3 : CalculateForceNode 1 ⟨d, 0⟩ theta G
      (QuadTreeNode.mk ⟨d * 0.8, d * 0.3⟩ (d * 0.6) 0 ⟨0, 0⟩ [] none true)
      = (0, []) := by
    simp only [CalculateForceNode]
    rw [if_pos le_rfl]
  have hsubB : ((⟨0, 0⟩ : Vec2 ℝ) - ⟨d, 0⟩) = ⟨-d, 0⟩ := by
    ext <;> simp [Vec2.sub_def]
  have hdotB : Vec2.dot (⟨-d, 0⟩ : Vec2 ℝ) ⟨-d, 0⟩ = d ^ 2 := by
    simp [Vec2.dot]
    ring
  have hnd2 : ¬(d ^ 2 ≤ 0) := not_le.mpr (by positivity)
  have hval : ((G * mA / (d ^ 2 + 0.01 * 0.01)) / d) • (⟨-d, 0⟩ : Vec2 ℝ)
      = ⟨-(G * mA / (d ^ 2 + 1 / 10000)), 0⟩ := by
    ext
    · simp only [Vec2.smul_def]
      rw [div_mul_eq_mul_div, div_eq_iff (ne_of_gt hd0)]
      norm_num
    · simp [Vec2.smul_def]
  have hc0 : CalculateForceNode 1 ⟨d, 0⟩ theta G
      (QuadTreeNode.mk ⟨d * 0.2, -(d * 0.3)⟩ (d * 0.6) mA ⟨0, 0⟩ []
        (some 0) true)
      = ((⟨-(G * mA / (d ^ 2 + 1 / 10000)), 0⟩ : Vec2 ℝ),
         [(QuadTreeNode.mk ⟨d * 0.2, -(d * 0.3)⟩ (d * 0.6) mA ⟨0, 0⟩ []
            (some 0) true, true)]) := by
    simp only [CalculateForceNode]
    rw [if_neg (not_le.mpr hA), if_neg (by simp), hsubB, hdotB,
      Real.sqrt_sq hd0.le]
    by_cases hr : d * 0.6 / (d + 1e-10) < theta
    · rw [if_pos hr, if_neg hnd2, hval]
    · rw [if_neg hr, if_pos (by trivial)]
      rw [if_neg hnd2, hval]
  have hratio : ¬(d * 1.2 / (mA * d / (mA + mB) + 1e-10) < theta) := by
    rw [not_lt, le_div_iff₀ (by positivity)]
    nlinarith
  simp only [CalculateForceNode]
  rw [if_neg (not_le.mpr hsumpos), if_neg (by simp), hsubA, hdotA, hsqrtA,
    if_neg hratio, if_neg Bool.false_ne_true]
  rw [CalculateForceChildren, CalculateForceChildren, CalculateForceChildren,
    CalculateForceChildren, CalculateForceChildren]
  rw [hc0, hc1, hc2, hc3]
  simp only [zero_add, add_zero, List.append_nil, List.nil_append,
    Prod.mk.injEq]

theorem forcesBarnesHut_two_body (d mA mB G theta : ℝ) (hd : 0.1 ≤ d)
    (hA : 0 < mA) (hB : 0 < mB) (hsum : (1e-9 : ℝ) < mA + mB)
    (htheta1 : theta ≤ 1) :
    (CalculateForcesBarnesHut theta G 10 (twoBodies d mA mB)).map Body.force
      = [⟨G * mB / (d ^ 2 + 1 / 10000), 0⟩,
         ⟨-(G * mA / (d ^ 2 + 1 / 10000)), 0⟩] := by
  have hsumpos : (0 : ℝ) < mA + mB := by positivity
  have hcfA : CalculateForce 0 ⟨0, 0⟩ theta G
      (some (QuadTreeNode.mk ⟨d * 0.5, 0⟩ (d * 1.2) (mA + mB)
        ⟨mB * d / (mA + mB), 0⟩
        [QuadTreeNode.mk ⟨d * 0.2, -(d * 0.3)⟩ (d * 0.6) mA ⟨0, 0⟩ []
           (some 0) true,
         QuadTreeNode.mk ⟨d * 0.8, -(d * 0.3)⟩ (d * 0.6) mB ⟨d, 0⟩ []
           (some 1) true,
         QuadTreeNode.mk ⟨d * 0.2, d * 0.3⟩ (d * 0.6) 0 ⟨0, 0⟩ [] none true,
         QuadTreeNode.mk ⟨d * 0.8, d * 0.3⟩ (d * 0.6) 0 ⟨0, 0⟩ [] none true]
        none false))
      = ⟨G * mB / (d ^ 2 + 1 / 10000), 0⟩ := by
    simp only [CalculateForce, QuadTreeNode.totalMass_mk]
    rw [if_neg (not_le.mpr hsumpos),
      treeForce_on_A d mA mB G theta hd hA hB htheta1]
  have hcfB : CalculateForce 1 ⟨d, 0⟩ theta G
      (some (QuadTreeNode.mk ⟨d * 0.5, 0⟩ (d * 1.2) (mA + mB)
        ⟨mB * d / (mA + mB), 0⟩
        [QuadTreeNode.mk ⟨d * 0.2, -(d * 0.3)⟩ (d * 0.6) mA ⟨0, 0⟩ []
           (some 0) true,
         QuadTreeNode.mk ⟨d * 0.8, -(d * 0.3)⟩ (d * 0.6) mB ⟨d, 0⟩ []
           (some 1) true,
         QuadTreeNode.mk ⟨d * 0.2, d * 0.3⟩ (d * 0.6) 0 ⟨0, 0⟩ [] none true,
         QuadTreeNode.mk ⟨d * 0.8, d * 0.3⟩ (d * 0.6) 0 ⟨0, 0⟩ [] none true]
        none false))
      = ⟨-(G * mA / (d ^ 2 + 1 / 10000)), 0⟩ := by
    simp only [CalculateForce, QuadTreeNode.totalMass_mk]
    rw [if_neg (not_le.mpr hsumpos),
      treeForce_on_B d mA mB G theta hd hA hB htheta1]
  norm_num at hcfA hcfB
  simp only [CalculateForcesBarnesHut]
  rw [two_body_tree d mA mB hd hA hB hsum]
  simp only [twoBodies, enumFrom, List.map_cons, List.map_nil]
  norm_num [hcfA, hcfB, Vec2.add_def, Vec2.mk.injEq, Vec2.zero_def]

/-- C1 (amended): for two bodies A at the origin (mass mA) and B at
(d,0) (mass mB), d at least the 0.1 bounding-box floor, with positive G,
uncapped contributions, and theta at most 1, the direct evaluator stores
on A the per-unit-mass force (G·mB/(d²+ε²))·x̂ and on B its mirror image
in −x, and the Barnes–Hut evaluator stores (G·mB/(d²+10⁻⁴))·x̂ on A and
the mirror on B — the tree kernel uses its own softening constant 0.01,
ignoring the engine's ε.  The directions match the claim; the stored
magnitudes are G·m_other/(d²+ε²), not G·mA·mB/(d²+ε²), and they differ
between the two bodies unless mA = mB; the claimed symmetric magnitude
G·mA·mB/(d²+ε²) is recovered only after multiplying each stored force
by its receiver's mass. -/
theorem two_body_sanity (d mA mB G eps theta : ℝ) (hd : 0.1 ≤ d)
    (hA : 0 < mA) (hB : 0 < mB) (hG : 0 < G) (hsum : (1e-9 : ℝ) < mA + mB)
    (htheta1 : theta ≤ 1)
    (hcapA : G * mB / (d ^ 2 + eps ^ 2) ≤ 10000)
    (hcapB : G * mA / (d ^ 2 + eps ^ 2) ≤ 10000) :
    ∃ fA fB tA tB : Vec2 ℝ,
      (CalculateForcesDirect G eps (twoBodies d mA mB)).map Body.force
        = [fA, fB] ∧
      (CalculateForcesBarnesHut theta G 10 (twoBodies d mA mB)).map Body.force
        = [tA, tB] ∧
      0 < fA.x ∧ fA.y = 0 ∧ fB.x < 0 ∧ fB.y = 0 ∧
      len fA = G * mB / (d ^ 2 + eps ^ 2) ∧
      len fB = G * mA / (d ^ 2 + eps ^ 2) ∧
      mA * len fA = G * mA * mB / (d ^ 2 + eps ^ 2) ∧
      mB * len fB = G * mA * mB / (d ^ 2 + eps ^ 2) ∧
      0 < tA.x ∧ tA.y = 0 ∧ tB.x < 0 ∧ tB.y = 0 ∧
      len tA = G * mB / (d ^ 2 + 1 / 10000) ∧
      len tB = G * mA / (d ^ 2 + 1 / 10000) ∧
      mA * len tA = G * mA * mB / (d ^ 2 + 1 / 10000) ∧
      mB * len tB = G * mA * mB / (d ^ 2 + 1 / 10000) := by
  have hd0 : (0 : ℝ) < d := by linarith
  have hden : (0 : ℝ) < d ^ 2 + eps ^ 2 := by positivity
  have hden2 : (0 : ℝ) < d ^ 2 + 1 / 10000 := by positivity
  refine ⟨_, _, _, _,
    forcesDirect_two_body d mA mB G eps hd hA hB hG hcapA hcapB,
    forcesBarnesHut_two_body d mA mB G theta hd hA hB hsum htheta1,
    by positivity, rfl, ?_, rfl,
    ?_, ?_, ?_, ?_,
    by positivity, rfl, ?_, rfl,
    ?_, ?_, ?_, ?_⟩
  · simp only
    rw [neg_lt, neg_zero]
    positivity
  · rw [len_single_x, abs_of_nonneg (by positivity)]
  · rw [len_single_x, abs_neg, abs_of_nonneg (by positivity)]
  · rw [len_single_x, abs_of_nonneg (by positivity)]
    ring
  · rw [len_single_x, abs_neg, abs_of_nonneg (by positivity)]
    ring
  · simp only
    rw [neg_lt, neg_zero]
    positivity
  · rw [len_single_x, abs_of_nonneg (by positivity)]
  · rw [len_single_x, abs_neg, abs_of_nonneg (by positivity)]
  · rw [len_single_x, abs_of_nonneg (by positivity)]
    ring
  · rw [len_single_x, abs_neg, abs_of_nonneg (by positivity)]
    ring

/-- C1 counterexample: masses 2 and 3 at unit distance, G = 1, ε = 0.
The direct evaluator stores force magnitude 3 on A and 2 on B: the two
magnitudes differ, and neither equals the claimed symmetric value
G·mA·mB/(d²+ε²) = 6. -/
theorem two_body_sanity_counterexample :
    ∃ fA fB : Vec2 ℝ,
      (CalculateForcesDirect 1 0 (twoBodies 1 2 3)).map Body.force
        = [fA, fB] ∧
      len fA = 3 ∧ len fB = 2 ∧ len fA ≠ len fB ∧
      len fA ≠ 1 * 2 * 3 / ((1 : ℝ) ^ 2 + 0 ^ 2) ∧
      len fB ≠ 1 * 2 * 3 / ((1 : ℝ) ^ 2 + 0 ^ 2) := by
  have h := forcesDirect_two_body 1 2 3 1 0 (by norm_num) (by norm_num)
    (by norm_num) (by norm_num) (by norm_num) (by norm_num)
  have hA3 : len (⟨1 * 3 / ((1 : ℝ) ^ 2 + 0 ^ 2), 0⟩ : Vec2 ℝ) = 3 := by
    rw [len_single_x]
    norm_num
  have hB2 : len (⟨-(1 * 2 / ((1 : ℝ) ^ 2 + 0 ^ 2)), 0⟩ : Vec2 ℝ) = 2 := by
    rw [len_single_x]
    norm_num
  refine ⟨_, _, h, hA3, hB2, ?_, ?_, ?_⟩
  · rw [hA3, hB2]
    norm_num
  · rw [hA3]
    norm_num
  · rw [hB2]
    norm_num

/-- C1 witness: the amended two-body statement at d = 1, masses 2 and 3,
G = 1, ε = 0, theta = 1/2. -/
theorem two_body_sanity_witness :
    ∃ fA fB tA tB : Vec2 ℝ,
      (CalculateForcesDirect 1 0 (twoBodies 1 2 3)).map Body.force
        = [fA, fB] ∧
      (CalculateForcesBarnesHut (1 / 2) 1 10 (twoBodies 1 2 3)).map Body.force
        = [tA, tB] ∧
      0 < fA.x ∧ fA.y = 0 ∧ fB.x < 0 ∧ fB.y = 0 ∧
      len fA = 1 * 3 / ((1 : ℝ) ^ 2 + 0 ^ 2) ∧
      len fB = 1 * 2 / ((1 : ℝ) ^ 2 + 0 ^ 2) ∧
      2 * len fA = 1 * 2 * 3 / ((1 : ℝ) ^ 2 + 0 ^ 2) ∧
      3 * len fB = 1 * 2 * 3 / ((1 : ℝ) ^ 2 + 0 ^ 2) ∧
      0 < tA.x ∧ tA.y = 0 ∧ tB.x < 0 ∧ tB.y = 0 ∧
      len tA = 1 * 3 / ((1 : ℝ) ^ 2 + 1 / 10000) ∧
      len tB = 1 * 2 / ((1 : ℝ) ^ 2 + 1 / 10000) ∧
      2 * len tA = 1 * 2 * 3 / ((1 : ℝ) ^ 2 + 1 / 10000) ∧
      3 * len tB = 1 * 2 * 3 / ((1 : ℝ) ^ 2 + 1 / 10000) :=
  two_body_sanity 1 2 3 1 0 (1 / 2) (by norm_num) (by norm_num) (by norm_num)
    (by norm_num) (by norm_num) (by norm_num) (by norm_num) (by norm_num)

theorem preservesFixed_refl (bs : List (Body ℝ)) : PreservesFixed bs bs :=
  ⟨rfl, fun _ a ha => ⟨a, ha, rfl, rfl, fun _ => ⟨rfl, rfl⟩⟩⟩

theorem preservesFixed_trans {bs1 bs2 bs3 : List (Body ℝ)}
    (h12 : PreservesFixed bs1 bs2) (h23 : PreservesFixed bs2 bs3) :
    PreservesFixed bs1 bs3 := by
  refine ⟨h23.1.trans h12.1, fun i a ha => ?_⟩
  obtain ⟨a', ha', hf', hd', hpv'⟩ := h12.2 i a ha
  obtain ⟨a'', ha'', hf'', hd'', hpv''⟩ := h23.2 i a' ha'
  refine ⟨a'', ha'', hf''.trans hf', hd''.trans hd', fun hfix => ?_⟩
  obtain ⟨hp', hv'⟩ := hpv' hfix
  obtain ⟨hp'', hv''⟩ := hpv'' (hf'.trans hfix)
  exact ⟨hp''.trans hp', hv''.trans hv'⟩

theorem preservesFixed_map (bs : List (Body ℝ)) (g : Body ℝ → Body ℝ)
    (h : ∀ b : Body ℝ, (g b).fixed = b.fixed ∧
      (g b).beingDragged = b.beingDragged ∧
      (b.fixed = true → (g b).position = b.position ∧
        (g b).velocity = b.velocity)) :
    PreservesFixed bs (bs.map g) := by
  refine ⟨List.length_map _ _, fun i a ha => ?_⟩
  refine ⟨g a, ?_, (h a).1, (h a).2.1, (h a).2.2⟩
  rw [List.getElem?_map, ha]
  rfl

theorem enumFrom_getElem? {β : Type} :
    ∀ (bs : List β) (k i : ℕ),
      (enumFrom k bs)[i]? = bs[i]?.map (fun b => (k + i, b)) := by
  intro bs
  induction bs with
  | nil => intro k i; rfl
  | cons b rest ih =>
    intro k i
    cases i with
    | zero => simp [enumFrom]
    | succ j =>
      simp only [enumFrom, List.getElem?_cons_succ, ih (k + 1) j]
      cases rest[j]? with
      | none => simp
      | some c =>
        simp only [Option.map_some', Option.some.injEq, Prod.mk.injEq]
        exact ⟨by omega, trivial⟩

theorem enumFrom_length {β : Type} :
    ∀ (bs : List β) (k : ℕ), (enumFrom k bs).length = bs.length := by
  intro bs
  induction bs with
  | nil => intro k; rfl
  | cons b rest ih => intro k; simp [enumFrom, ih]

theorem preservesFixed_enumMap (bs : List (Body ℝ))
    (f : ℕ × Body ℝ → Body ℝ)
    (h : ∀ p : ℕ × Body ℝ, (f p).fixed = p.2.fixed ∧
      (f p).beingDragged = p.2.beingDragged ∧
      (p.2.fixed = true → (f p).position = p.2.position ∧
        (f p).velocity = p.2.velocity)) :
    PreservesFixed bs ((enumFrom 0 bs).map f) := by
  refine ⟨by rw [List.length_map, enumFrom_length], fun i a ha => ?_⟩
  refine ⟨f (i, a), ?_, (h (i, a)).1, (h (i, a)).2.1, (h (i, a)).2.2⟩
  rw [List.getElem?_map, enumFrom_getElem?, ha]
  simp

theorem preservesFixed_set (bs : List (Body ℝ)) (i : ℕ) (a a' : Body ℝ)
    (hget : bs[i]? = some a)
    (hf : a'.fixed = a.fixed) (hd : a'.beingDragged = a.beingDragged)
    (hpv : a.fixed = true → a'.position = a.position ∧
      a'.velocity = a.velocity) :
    PreservesFixed bs (bs.set i a') := by
  have hlt : i < bs.length := by
    by_contra hge
    rw [List.getElem?_eq_none (le_of_not_lt hge)] at hget
    exact Option.noConfusion hget
  refine ⟨List.length_set _ _ _, fun j b hb => ?_⟩
  by_cases hji : j = i
  · subst hji
    rw [hget] at hb
    injection hb with hb
    subst hb
    exact ⟨a', List.getElem?_set_eq_of_lt a' hlt, hf, hd, hpv⟩
  · exact ⟨b, by rw [List.getElem?_set_ne (fun h => hji h.symm), hb],
      rfl, rfl, fun _ => ⟨rfl, rfl⟩⟩

theorem preservesFixed_foldl {γ : Type}
    (step : List (Body ℝ) → γ → List (Body ℝ))
    (h : ∀ (acc : List (Body ℝ)) (q : γ), PreservesFixed acc (step acc q)) :
    ∀ (l : List γ) (init : List (Body ℝ)),
      PreservesFixed init (l.foldl step init) := by
  intro l
  induction l with
  | nil => intro init; exact preservesFixed_refl init
  | cons q qs ih =>
    intro init
    rw [List.foldl_cons]
    exact preservesFixed_trans (h init q) (ih (step init q))

theorem preservesFixed_clear (bs : List (Body ℝ)) :
    PreservesFixed bs (bs.map ClearForce) :=
  preservesFixed_map bs ClearForce (fun _ => ⟨rfl, rfl, fun _ => ⟨rfl, rfl⟩⟩)

theorem preservesFixed_direct (G eps : ℝ) (bs : List (Body ℝ)) :
    PreservesFixed bs (CalculateForcesDirect G eps bs) := by
  unfold CalculateForcesDirect
  apply preservesFixed_enumMap
  intro p
  by_cases hf : p.2.fixed = true
  · rw [if_pos hf]
    exact ⟨rfl, rfl, fun _ => ⟨rfl, rfl⟩⟩
  · rw [if_neg hf]
    exact ⟨rfl, rfl, fun h => absurd h hf⟩

theorem preservesFixed_bh (theta G : ℝ) (fuel : ℕ) (bs : List (Body ℝ)) :
    PreservesFixed bs (CalculateForcesBarnesHut theta G fuel bs) := by
  unfold CalculateForcesBarnesHut
  apply preservesFixed_enumMap
  intro p
  by_cases hf : p.2.fixed = true
  · rw [if_pos hf]
    exact ⟨rfl, rfl, fun _ => ⟨rfl, rfl⟩⟩
  · rw [if_neg hf]
    exact ⟨rfl, rfl, fun h => absurd h hf⟩

theorem preservesFixed_opt (G eps : ℝ) (bs : List (Body ℝ)) :
    PreservesFixed bs (CalculateForcesOptimized G eps bs) := by
  unfold CalculateForcesOptimized
  refine preservesFixed_trans (preservesFixed_clear bs) ?_
  apply preservesFixed_enumMap
  intro p
  by_cases hf : p.2.fixed = true
  · rw [if_pos hf]
    exact ⟨rfl, rfl, fun _ => ⟨rfl, rfl⟩⟩
  · rw [if_neg hf]
    exact ⟨rfl, rfl, fun h => absurd h hf⟩

theorem preservesFixed_morton (G eps : ℝ) (sorted : List ℕ)
    (bs : List (Body ℝ)) :
    PreservesFixed bs (CalculateForcesSpatiallyOptimized G eps sorted bs) := by
  unfold CalculateForcesSpatiallyOptimized
  refine preservesFixed_trans (preservesFixed_clear bs) ?_
  apply preservesFixed_foldl
  intro acc q
  cases hg : acc[q.2]? with
  | none => exact preservesFixed_refl acc
  | some bodyA =>
    show PreservesFixed acc (if bodyA.fixed = true then acc
      else
        let totalForce := (enumFrom 0 sorted).foldl
          (fun acc2 r =>
            if r.1 = q.1 then acc2
            else
              match (bs.map ClearForce)[r.2]? with
              | none => acc2
              | some bodyB => acc2 + MortonPairContribution bodyA.position
                  bodyB.position bodyB.mass G (eps * eps)) 0
        acc.set q.2 { bodyA with force := bodyA.force + totalForce })
    by_cases hf : bodyA.fixed = true
    · rw [if_pos hf]
      exact preservesFixed_refl acc
    · rw [if_neg hf]
      exact preservesFixed_set acc q.2 bodyA _ hg rfl rfl
        (fun _ => ⟨rfl, rfl⟩)

theorem resolve_preserves (e : ℝ) (a b : Body ℝ) :
    ((ResolveCollision e a b).1.fixed = a.fixed ∧
     (ResolveCollision e a b).1.beingDragged = a.beingDragged ∧
     (a.fixed = true → (ResolveCollision e a b).1.position = a.position ∧
       (ResolveCollision e a b).1.velocity = a.velocity)) ∧
    ((ResolveCollision e a b).2.fixed = b.fixed ∧
     (ResolveCollision e a b).2.beingDragged = b.beingDragged ∧
     (b.fixed = true → (ResolveCollision e a b).2.position = b.position ∧
       (ResolveCollision e a b).2.velocity = b.velocity)) := by
  simp only [ResolveCollision]
  split_ifs <;>
    refine ⟨⟨rfl, rfl, fun hfa => ⟨?_, ?_⟩⟩, rfl, rfl, fun hfb => ⟨?_, ?_⟩⟩ <;>
    simp_all

theorem preservesFixed_collisions (e : ℝ) (bs : List (Body ℝ)) :
    PreservesFixed bs (HandleCollisions e bs) := by
  unfold HandleCollisions
  apply preservesFixed_foldl
  intro acc ij
  cases hga : acc[ij.1]? with
  | none => exact preservesFixed_refl acc
  | some a =>
    cases hgb : acc[ij.2]? with
    | none => exact preservesFixed_refl acc
    | some b =>
      show PreservesFixed acc (if IsColliding a b then
        (acc.set ij.1 (ResolveCollision e a b).1).set ij.2
          (ResolveCollision e a b).2
        else acc)
      by_cases hc : IsColliding a b
      · rw [if_pos hc]
        obtain ⟨⟨hf1, hd1, hpv1⟩, hf2, hd2, hpv2⟩ := resolve_preserves e a b
        by_cases hij : ij.2 = ij.1
        · rw [hij] at hgb ⊢
          rw [List.set_set]
          rw [hga] at hgb
          injection hgb with hab
          subst hab
          exact preservesFixed_set acc ij.1 a _ hga hf2 hd2 hpv2
        · refine preservesFixed_trans
            (preservesFixed_set acc ij.1 a _ hga hf1 hd1 hpv1) ?_
          refine preservesFixed_set _ ij.2 b _ ?_ hf2 hd2 hpv2
          rw [List.getElem?_set_ne (fun h => hij h.symm), hgb]
      · rw [if_neg hc]
        exact preservesFixed_refl acc

theorem preservesFixed_calculateForces (cfg : PhysicsConfig)
    (gpuAvailable : Bool) (sortedIndices : List ℕ) (fuel : ℕ)
    (bs : List (Body ℝ)) :
    PreservesFixed bs (CalculateForces cfg gpuAvailable sortedIndices fuel bs) := by
  unfold CalculateForces
  by_cases h1 : (cfg.useGPU && gpuAvailable) = true
  · rw [if_pos h1]
    exact preservesFixed_trans (preservesFixed_clear bs)
      (preservesFixed_direct _ _ _)
  · rw [if_neg h1]
    by_cases h2 : (cfg.useBarnesHut
        && decide (cfg.maxBodiesForDirect < bs.length)) = true
    · rw [if_pos h2]
      exact preservesFixed_trans (preservesFixed_clear bs)
        (preservesFixed_bh _ _ _ _)
    · rw [if_neg h2]
      by_cases h3 : 100 < bs.length
      · rw [if_pos h3]
        exact preservesFixed_trans (preservesFixed_clear bs)
          (preservesFixed_morton _ _ _ _)
      · rw [if_neg h3]
        by_cases h4 : 50 < bs.length
        · rw [if_pos h4]
          exact preservesFixed_trans (preservesFixed_clear bs)
            (preservesFixed_opt _ _ _)
        · rw [if_neg h4]
          exact preservesFixed_trans (preservesFixed_clear bs)
            (preservesFixed_direct _ _ _)

theorem preservesFixed_integrate (damping dt : ℝ) (bs : List (Body ℝ)) :
    PreservesFixed bs (IntegrateLeapfrog damping dt bs) := by
  unfold IntegrateLeapfrog
  apply preservesFixed_map
  intro b
  unfold IntegrateLeapfrogBody
  by_cases hf : (b.fixed || b.beingDragged) = true
  · rw [if_pos hf]
    exact ⟨rfl, rfl, fun _ => ⟨rfl, rfl⟩⟩
  · rw [if_neg hf]
    refine ⟨rfl, rfl, fun h => absurd ?_ hf⟩
    rw [h, Bool.true_or]

theorem preservesFixed_step (cfg : PhysicsConfig) (gpuAvailable : Bool)
    (sortedIndices : List ℕ) (fuel : ℕ) (dt : ℝ) (bs : List (Body ℝ)) :
    PreservesFixed bs
      (PhysicsStep cfg gpuAvailable sortedIndices fuel dt bs) := by
  unfold PhysicsStep
  by_cases he : bs.isEmpty = true
  · rw [if_pos he]
    exact preservesFixed_refl bs
  · rw [if_neg he]
    refine preservesFixed_trans
      (preservesFixed_calculateForces cfg gpuAvailable sortedIndices fuel bs)
      (preservesFixed_trans ?_ (preservesFixed_integrate _ _ _))
    by_cases hcoll : cfg.enableCollisions = true
    · rw [if_pos hcoll]
      exact preservesFixed_collisions _ _
    · rw [if_neg hcoll]
      exact preservesFixed_refl _

theorem preservesFixed_stepN (cfg : PhysicsConfig) (gpuAvailable : Bool)
    (sortedIndices : List ℕ) (fuel : ℕ) (dt : ℝ) :
    ∀ (n : ℕ) (bs : List (Body ℝ)),
      PreservesFixed bs
        (PhysicsStepN cfg gpuAvailable sortedIndices fuel dt n bs) := by
  intro n
  induction n with
  | zero => intro bs; exact preservesFixed_refl bs
  | succ n ih =>
    intro bs
    rw [PhysicsStepN]
    exact preservesFixed_trans
      (preservesFixed_step cfg gpuAvailable sortedIndices fuel dt bs)
      (ih _)

/-- C7 (amended): a body with fixed = true keeps its position and its
initial velocity across any number of physics steps — the force passes
only touch forces, the collision resolver never moves a fixed body, and
the integrator skips fixed bodies entirely.  The integrator does NOT
force a fixed body's velocity to zero on entry: the velocity stays at
whatever initial value the body was created with. -/
theorem fixed_body_invariance (cfg : PhysicsConfig) (gpuAvailable : Bool)
    (sortedIndices : List ℕ) (fuel : ℕ) (dt : ℝ) (n : ℕ)
    (bs : List (Body ℝ)) (i : ℕ) (a : Body ℝ)
    (ha : bs[i]? = some a) (hf : a.fixed = true) :
    ∃ a' : Body ℝ,
      (PhysicsStepN cfg gpuAvailable sortedIndices fuel dt n bs)[i]?
        = some a' ∧
      a'.position = a.position ∧ a'.velocity = a.velocity := by
  obtain ⟨a', ha', -, -, hpv⟩ :=
    (preservesFixed_stepN cfg gpuAvailable sortedIndices fuel dt n bs).2 i a ha
  exact ⟨a', ha', hpv hf⟩

/-- C7 witness: one physics step on a single fixed body at (2,3) with
initial velocity (1,0). -/
theorem fixed_body_invariance_witness :
    ∃ a' : Body ℝ,
      (PhysicsStepN ⟨1, 1 / 10, 1, 1 / 2, 4 / 5, false, false, false, 1000⟩
          false [] 10 1 1
          [⟨⟨2, 3⟩, ⟨1, 0⟩, ⟨0, 0⟩, ⟨0, 0⟩, 1, 1, 2, false, false, true⟩])[0]?
        = some a' ∧
      a'.position = (⟨⟨2, 3⟩, ⟨1, 0⟩, ⟨0, 0⟩, ⟨0, 0⟩, 1, 1, 2, false, false,
        true⟩ : Body ℝ).position ∧
      a'.velocity = (⟨⟨2, 3⟩, ⟨1, 0⟩, ⟨0, 0⟩, ⟨0, 0⟩, 1, 1, 2, false, false,
        true⟩ : Body ℝ).velocity :=
  fixed_body_invariance
    ⟨1, 1 / 10, 1, 1 / 2, 4 / 5, false, false, false, 1000⟩ false [] 10 1 1
    [⟨⟨2, 3⟩, ⟨1, 0⟩, ⟨0, 0⟩, ⟨0, 0⟩, 1, 1, 2, false, false, true⟩] 0
    ⟨⟨2, 3⟩, ⟨1, 0⟩, ⟨0, 0⟩, ⟨0, 0⟩, 1, 1, 2, false, false, true⟩ rfl rfl

/-- C7 counterexample: a fixed body created with velocity (1,0) still
has velocity (1,0) after a physics step — the claim that a fixed body's
velocity "is zero at all times" because "the integrator forces it to
zero on entry" is false: the integrator merely skips the body. -/
theorem fixed_body_velocity_counterexample :
    (PhysicsStepN ⟨1, 1 / 10, 1, 1 / 2, 4 / 5, false, false, false, 1000⟩
        false [] 10 1 1
        [⟨⟨2, 3⟩, ⟨1, 0⟩, ⟨0, 0⟩, ⟨0, 0⟩, 1, 1, 2, false, false, true⟩]).map
      Body.velocity = [⟨1, 0⟩] ∧
    ((⟨1, 0⟩ : Vec2 ℝ) ≠ (0 : Vec2 ℝ)) := by
  constructor
  · rfl
  · intro h
    have hx : (1 : ℝ) = 0 := congrArg Vec2.x h
    norm_num at hx

end CelestialSim
